import Mathlib

/-!
Shallow embedding of forge/blade/core/realm.py (Neural MMO tick core):
the population ledger (Spawner), the Realm orchestrator with its
step/reset entry points, action prioritization and application, culling,
and observation collection.

Python dicts are embedded as insertion-ordered association lists over Nat
keys (Python 3.7+ dicts preserve insertion order; assigning to an existing
key keeps its position).  Machine integers are Nat/Int (Python ints are
unbounded).  Fallible code (assert failures, KeyError) returns Except.
External collaborators (entity behavior, world/grid, palette, string hash)
are modelled from the spec, marked in their doc comments.
-/

set_option autoImplicit false

/-- Read-only configuration: total entity cap, population count, stimulus
radius (config.NENT, config.NPOP, config.STIM). -/
structure Config where
  NENT : Nat
  NPOP : Nat
  STIM : Nat

/-- Modelled from the spec: the external Entity collaborator (section 6 of
the spec) exposes identity, population index (annID / base.population),
position, liveness flag and serial number; name and color are carried from
construction. -/
structure Player where
  entID : Nat
  pop : Nat
  name : String
  color : Nat
  pos : Nat × Nat
  alive : Bool
  serial : Nat
deriving DecidableEq, Repr

/-- An action kind: identified by a tag, carrying a class-level priority
(atn.priority in the source). -/
structure Atn where
  id : Nat
  priority : Nat
deriving DecidableEq, Repr

/-- Action arguments are opaque to the core; a Nat stands in for them. -/
abbrev Args := Nat

/-- A decisions mapping: entity-ID to (action kind to arguments), in dict
insertion order. -/
abbrev Decisions := List (Nat × List (Atn × Args))

/-- Modelled from the spec: one cell of the external world/grid collaborator,
holding per-cell entities (addEnt / delEnt) and per-population occupancy
counters (counts). -/
structure Tile where
  ents : List (Nat × Player)
  counts : Nat → Int

/-- Modelled from the spec: the external world state. tiles is the spatial
grid (world.env.tiles); ext is the remaining opaque environmental state. -/
structure World where
  tiles : Nat × Nat → Tile
  ext : Nat

/-- Modelled from the spec: the bundle of external collaborator behaviors the
core consumes (section 6 of the spec): entity self-step and action
application, the one-shot per-tick world advance, per-cell stimulus
computation, spawn position / serial / palette color assignment at entity
construction, and the initial world built by core.Env. -/
structure Collab where
  selfStep : World → Player → List (Atn × Args) → Player
  applyAct : World → Player → Atn × Args → Player
  advance : World → List Player → World
  stim : World → Nat × Nat → Nat → Nat
  initPos : Nat → Nat × Nat
  serialOf : Nat → Nat
  colorOf : Nat → Nat
  initWorld : World

/-- Python AssertionError raised by a failed assert statement. -/
def assertErr : String := "AssertionError"

/-- Python KeyError raised by a lookup of a missing dict key. -/
def keyErr : String := "KeyError"

/-- The fatal restart message of Realm.reset (realm.py line 124). -/
def resetMsg : String :=
  "Neural MMO is persistent and may only be reset once upon initialization"

/-- Dict read: first entry with the given key (keys are unique in a Python
dict, so first-match equals the unique match). -/
def lookupA {α : Type} : List (Nat × α) → Nat → Option α
  | [], _ => none
  | (k, v) :: rest, e => if k = e then some v else lookupA rest e

/-- Dict assignment d[e] = v: overwrite in place if the key exists (keeping
its position), else append at the end. -/
def upsertA {α : Type} : List (Nat × α) → Nat → α → List (Nat × α)
  | [], e, v => [(e, v)]
  | (k, w) :: rest, e, v =>
    if k = e then (k, v) :: rest else (k, w) :: upsertA rest e v

/-- Dict deletion del d[e]: drop the entry with the given key. -/
def removeA {α : Type} : List (Nat × α) → Nat → List (Nat × α)
  | [], _ => []
  | (k, w) :: rest, e => if k = e then rest else (k, w) :: removeA rest e

/-- Python set.add: append if absent (sets are modelled as duplicate-free
lists; no claim depends on set iteration order). -/
def setAdd (l : List Nat) (x : Nat) : List Nat := if x ∈ l then l else l ++ [x]

/-- The population ledger state held by Spawner.__init__ (realm.py lines
20-31): caps, per-population slot size popSz = NENT // NPOP, total count
ents, and per-population counts pops.  pops embeds the defaultdict(int):
an absent key reads as 0, so the mapping is a total function; deleting a
key whose count reached zero (line 79) is invisible in this view.  Counts
are Int so that nonnegativity is a real property.  The palette is external
(Collab.colorOf); config is passed explicitly where needed. -/
structure Spawner where
  nEnt : Nat
  nPop : Nat
  popSz : Nat
  ents : Int
  pops : Nat → Int

/-- Spawner.__init__ from a Config (realm.py lines 20-31). -/
def Spawner.init (cfg : Config) : Spawner :=
  { nEnt := cfg.NENT, nPop := cfg.NPOP, popSz := cfg.NENT / cfg.NPOP
    ents := 0, pops := fun _ => 0 }

/-- The pure counter fragment of Spawner.spawn (realm.py lines 47-55): the
two capacity checks (each returning None, i.e. refusing) and the two
increments.  The spec names this operation admit(populationIndex). -/
def Spawner.spawnCounts (sp : Spawner) (pop : Nat) : Option Spawner :=
  if sp.ents = (sp.nEnt : Int) then none
  else if sp.pops pop = (sp.popSz : Int) then none
  else some { sp with
              pops := fun q => if q = pop then sp.pops pop + 1 else sp.pops q
              ents := sp.ents + 1 }

/-- entity.Player(config, iden, pop, name, color) (realm.py line 58).
Modelled from the spec: the entity is constructed with the given identity,
population, name and color (spec section 4.2); its initial position, and its
serial number distinct from the identifier namespace, are assigned by the
external entity model; a newly constructed entity is live. -/
def Collab.mkPlayer (E : Collab) (iden pop : Nat) (name : String) (color : Nat) : Player :=
  { entID := iden, pop := pop, name := name, color := color
    pos := E.initPos iden, alive := true, serial := E.serialOf iden }

/-- A tile update at one grid cell of the world. -/
def World.updateTile (w : World) (rc : Nat × Nat) (f : Tile → Tile) : World :=
  { w with tiles := fun p => if p = rc then f (w.tiles p) else w.tiles p }

/-- Spawner.spawn (realm.py lines 33-64).  The three leading asserts (iden
is not None holds by the Nat type of iden here, see claim C10; the two
count asserts raise AssertionError); then the two capacity refusals and
the increments (Spawner.spawnCounts); then entity construction and
registration: realm.desciples[ent.entID] = ent, tiles[r, c].addEnt(iden,
ent) and tiles[r, c].counts[population] += 1 at the entity position.  The
assert on line 59 compares the fresh Player object against the integer
keys of desciples and therefore always passes; it is dropped here.  The
Python function body falls off the end on success and returns None on both
refusal paths, so the returned value is always Python None, embedded as
(none : Option Bool). -/
def Spawner.spawn (E : Collab) (sp : Spawner) (w : World) (ds : List (Nat × Player))
    (iden pop : Nat) (name : String) :
    Except String (Option Bool × Spawner × World × List (Nat × Player)) :=
  if sp.pops pop ≤ (sp.popSz : Int) then
    if sp.ents ≤ (sp.nEnt : Int) then
      match Spawner.spawnCounts sp pop with
      | none => .ok (none, sp, w, ds)
      | some sp1 =>
        let ent := Collab.mkPlayer E iden pop name (E.colorOf pop)
        let w1 := World.updateTile w ent.pos (fun tl =>
          { tl with
            ents := upsertA tl.ents iden ent
            counts := fun q => if q = ent.pop then tl.counts ent.pop + 1 else tl.counts q })
        .ok (none, sp1, w1, upsertA ds ent.entID ent)
    else .error assertErr
  else .error assertErr

/-- Spawner.cull (realm.py lines 66-79): two asserts, then both decrements;
deleting the pops entry when it reaches zero (line 79) is invisible in the
total-function view of the defaultdict. -/
def Spawner.cull (sp : Spawner) (pop : Nat) : Except String Spawner :=
  if 1 ≤ sp.pops pop then
    if 1 ≤ sp.ents then
      .ok { sp with
            pops := fun q => if q = pop then sp.pops pop - 1 else sp.pops q
            ents := sp.ents - 1 }
    else .error assertErr
  else .error assertErr

/-- The ledger states reachable through the tick pipeline, abstracted to
their effect on the counters: the initial ledger, any refused or granted
admission with a population index below NPOP (Realm.spawn always passes
pop = hash % NPOP), and any cull whose asserts pass.  Every sequence of
Realm.step calls (even one aborted mid-cull by an assert) drives the
ledger along exactly such a trace, so this relation over-approximates the
ledger states of reachable Realms. -/
inductive Spawner.Reach (cfg : Config) : Spawner → Prop where
  | init : Spawner.Reach cfg (Spawner.init cfg)
  | spawn_ok : ∀ {s s1 : Spawner} {pop : Nat}, Spawner.Reach cfg s →
      pop < cfg.NPOP → Spawner.spawnCounts s pop = some s1 → Spawner.Reach cfg s1
  | spawn_refuse : ∀ {s : Spawner} {pop : Nat}, Spawner.Reach cfg s →
      Spawner.spawnCounts s pop = none → Spawner.Reach cfg s
  | cull_ok : ∀ {s s1 : Spawner} {pop : Nat}, Spawner.Reach cfg s →
      Spawner.cull s pop = .ok s1 → Spawner.Reach cfg s1

/-- Wrapper for state, reward, done signals (realm.py lines 10-16); all
three fields start as None. -/
structure Packet where
  stim : Option (Nat ⊕ Player) := none
  reward : Option Int := none
  done : Option Bool := none
deriving DecidableEq, Repr

/-- The stim field of a Packet holds either the bare entity (set during
stepEnts, line 221) or the (stimulus, entity) pair set by getStims (line
272).  We model the latter; see StimData below. -/
inductive StimData where
  | entOnly (p : Player)
  | withStim (s : Nat) (p : Player)
deriving DecidableEq, Repr

/-- Observation packet keyed by entity, with the stim field at its actual
type. -/
structure Pkt where
  stim : Option StimData := none
  reward : Option Int := none
  done : Option Bool := none
deriving DecidableEq, Repr

/-- defaultdict(Packet) field write packets[e].f = v: a missing key first
gets a fresh default Packet (all fields None), then the field update is
applied in place. -/
def pktModify : List (Nat × Pkt) → Nat → (Pkt → Pkt) → List (Nat × Pkt)
  | [], e, f => [(e, f {})]
  | (k, q) :: rest, e, f =>
    if k = e then (k, f q) :: rest else (k, q) :: pktModify rest e f

/-- The Realm state (realm.py lines 85-96): world, entity map desciples,
the spawner ledger, the identifier counter entID, and the tick counter.
config and worldIdx are read-only and passed explicitly where used; the
cached numpy view self.env is rendering-only and omitted. -/
structure RealmState where
  world : World
  desciples : List (Nat × Player)
  spawner : Spawner
  entID : Nat
  tick : Nat

/-- Realm.__init__ (realm.py lines 85-96). -/
def Realm.init (E : Collab) (cfg : Config) : RealmState :=
  { world := E.initWorld, desciples := [], spawner := Spawner.init cfg
    entID := 1, tick := 0 }

/-- Realm.reward (realm.py lines 128-129): the placeholder reward. -/
def Realm.reward (entID : Nat) : Int := 0

/-- Realm.spawn (realm.py lines 131-135): identity generation.  The target
population is hash(str(self.entID)) % NPOP computed from the counter value
BEFORE the increment; the method then increments self.entID and returns
the incremented value.  h is the Python string hash (process-dependent,
hence a parameter); the Python % with a positive modulus is Int.emod.
Returns (new identifier = new self.entID, population, name prefix). -/
def Realm.spawn (h : String → Int) (nPop : Nat) (entID : Nat) : Nat × Nat × String :=
  let pop := ((h (toString entID)).emod (nPop : Int)).toNat
  (entID + 1, pop, "Neural_")

/-- One bucket of the prioritized actions: entity-ID to [atn, args]. -/
abbrev Bucket := List (Nat × (Atn × Args))

/-- The actions structure built by Realm.prioritize: a defaultdict(dict)
from priority to bucket, in insertion order. -/
abbrev Buckets := List (Nat × Bucket)

/-- actions[priority][entID] = [atn, args] on a defaultdict(dict): reading
actions[priority] appends an empty bucket if the priority is new; the
inner dict assignment overwrites any entry the entity already has in that
bucket (keeping its position). -/
def bucketInsert : Buckets → Nat → Nat → Atn × Args → Buckets
  | [], p, e, v => [(p, [(e, v)])]
  | (q, b) :: rest, p, e, v =>
    if q = p then (q, upsertA b e v) :: rest
    else (q, b) :: bucketInsert rest p e v

/-- The inner loop of Realm.prioritize (realm.py lines 180-181) over the
action map of one entity. -/
def prioritizeInner (entID : Nat) : Buckets → List (Atn × Args) → Buckets
  | acc, [] => acc
  | acc, (atn, args) :: rest =>
    prioritizeInner entID (bucketInsert acc atn.priority entID (atn, args)) rest

/-- The outer loop of Realm.prioritize (realm.py line 179) over the
decisions mapping. -/
def Realm.prioritizeAux : Buckets → Decisions → Buckets
  | acc, [] => acc
  | acc, (entID, atns) :: rest => Realm.prioritizeAux (prioritizeInner entID acc atns) rest

/-- Realm.prioritize (realm.py lines 166-182). -/
def Realm.prioritize (d : Decisions) : Buckets := Realm.prioritizeAux [] d

/-- The priorities of all submitted actions in the order the prioritize
scan encounters them. -/
def prioritySeq (d : Decisions) : List Nat :=
  d.flatMap (fun ea => ea.2.map (fun av => av.1.priority))

/-- Keep the first occurrence of each element, in order of first
occurrence. -/
def firstOccur (l : List Nat) : List Nat :=
  l.foldl (fun acc p => if p ∈ acc then acc else acc ++ [p]) []

/-- The inner loop of Realm.act (realm.py lines 162-164) over one bucket:
look the entity up in desciples (KeyError if absent) and apply its action;
the mutation of the entity object is an in-place update of its dict
entry. -/
def Realm.actBucket (E : Collab) (w : World) :
    List (Nat × Player) → Bucket → Except String (List (Nat × Player))
  | ds, [] => .ok ds
  | ds, (entID, aa) :: rest =>
    match lookupA ds entID with
    | none => .error keyErr
    | some ent => Realm.actBucket E w (upsertA ds entID (E.applyAct w ent aa)) rest

/-- Realm.act (realm.py lines 155-164): iterate the priority buckets in
the (insertion) order of actions.items(), applying each bucket. -/
def Realm.act (E : Collab) (w : World) :
    List (Nat × Player) → Buckets → Except String (List (Nat × Player))
  | ds, [] => .ok ds
  | ds, (_, b) :: rest =>
    match Realm.actBucket E w ds b with
    | .error e => .error e
    | .ok ds1 => Realm.act E w ds1 rest

/-- The self-step loop of Realm.stepEnts (realm.py lines 205-207): every
entity with a decision is looked up (KeyError if absent) and stepped. -/
def Realm.selfStepEnts (E : Collab) (w : World) :
    List (Nat × Player) → Decisions → Except String (List (Nat × Player))
  | ds, [] => .ok ds
  | ds, (entID, atns) :: rest =>
    match lookupA ds entID with
    | none => .error keyErr
    | some ent => Realm.selfStepEnts E (w) (upsertA ds entID (E.selfStep w ent atns)) rest

/-- The cull scan of Realm.stepEnts (realm.py lines 213-222) with
Realm.postmortem (lines 226-240) inlined: for each decision key, look the
entity up; if it is dead, record its ID in dead and its serial in the
dones set; otherwise write the placeholder reward and the bare entity into
its packet. -/
def Realm.cullScan (ds2 : List (Nat × Player)) :
    Decisions → List Nat → List Nat → List (Nat × Pkt) →
    Except String (List Nat × List Nat × List (Nat × Pkt))
  | [], dead, dones, pk => .ok (dead, dones, pk)
  | (entID, _) :: rest, dead, dones, pk =>
    match lookupA ds2 entID with
    | none => .error keyErr
    | some ent =>
      if ent.alive then
        Realm.cullScan ds2 rest dead dones
          (pktModify (pktModify pk entID (fun q => { q with reward := some (Realm.reward entID) }))
            entID (fun q => { q with stim := some (StimData.entOnly ent) }))
      else
        Realm.cullScan ds2 rest (dead ++ [entID]) (setAdd dones ent.serial) pk

/-- Realm.cullDead (realm.py lines 242-255): for each dead entity ID, look
it up (KeyError if absent), deregister it from its grid cell, release its
population (ent.annID) from the ledger, and delete it from desciples. -/
def Realm.cullDead : World → Spawner → List (Nat × Player) → List Nat →
    Except String (World × Spawner × List (Nat × Player))
  | w, sp, ds, [] => .ok (w, sp, ds)
  | w, sp, ds, entID :: rest =>
    match lookupA ds entID with
    | none => .error keyErr
    | some ent =>
      let w1 := World.updateTile w ent.pos (fun tl => { tl with ents := removeA tl.ents entID })
      match Spawner.cull sp ent.pop with
      | .error e => .error e
      | .ok sp1 => Realm.cullDead w1 sp1 (removeA ds entID) rest

/-- Realm.stepEnts (realm.py lines 194-224): self-step all deciders,
prioritize and apply their actions, scan for the dead, then cull them.
Returns the mutated world/ledger/entity map with the packets and the dones
(serials) set. -/
def Realm.stepEnts (E : Collab) (w : World) (sp : Spawner) (ds : List (Nat × Player))
    (d : Decisions) :
    Except String (World × Spawner × List (Nat × Player) × List (Nat × Pkt) × List Nat) :=
  match Realm.selfStepEnts E w ds d with
  | .error e => .error e
  | .ok ds1 =>
    match Realm.act E w ds1 (Realm.prioritize d) with
    | .error e => .error e
    | .ok ds2 =>
      match Realm.cullScan ds2 d [] [] [] with
      | .error e => .error e
      | .ok (dead, dones, pk) =>
        match Realm.cullDead w sp ds2 dead with
        | .error e => .error e
        | .ok (w1, sp1, ds3) => .ok (w1, sp1, ds3, pk, dones)

/-- Realm.stepEnv (realm.py lines 184-192): the one-shot per-tick world
advance, taking the current entity list; env.step and the numpy view
refresh are folded into the external advance. -/
def Realm.stepEnv (E : Collab) (w : World) (ds : List (Nat × Player)) : World :=
  E.advance w (ds.map Prod.snd)

/-- Realm.getStims (realm.py lines 257-274): for every live entity, write
the (stimulus, entity) pair into its packet (creating the packet if the
entity had no decision this tick).  The tile texture read on line 268
binds an unused local and is omitted. -/
def Realm.getStims (E : Collab) (cfg : Config) (w : World) :
    List (Nat × Player) → List (Nat × Pkt) → List (Nat × Pkt)
  | [], pk => pk
  | (entID, ent) :: rest, pk =>
    Realm.getStims E cfg w rest
      (pktModify pk entID (fun q =>
        { q with stim := some (StimData.withStim (E.stim w ent.pos cfg.STIM) ent) }))

/-- The gym-style step return (realm.py lines 117-121): aligned stimulus
and reward lists over the packets, and the dones set of serials.  The
fourth returned slot is the constant None and carries no information. -/
structure Output where
  stims : List (Option StimData)
  rewards : List (Option Int)
  dones : List Nat

/-- Realm.step (realm.py lines 102-121): increment the tick, generate an
identity (the assert that it is not None holds by its Nat type, claim
C10), admit through the ledger, step/act/cull the entities, advance the
world, collect stimuli, and return the gym tuple.  On an uncaught assert
or KeyError the call aborts (Except.error). -/
def Realm.step (E : Collab) (cfg : Config) (h : String → Int) (r : RealmState)
    (d : Decisions) : Except String (RealmState × Output) :=
  let t := Realm.spawn h cfg.NPOP r.entID
  match Spawner.spawn E r.spawner r.world r.desciples t.1 t.2.1 t.2.2 with
  | .error e => .error e
  | .ok (_, sp1, w1, ds1) =>
    match Realm.stepEnts E w1 sp1 ds1 d with
    | .error e => .error e
    | .ok (w2, sp2, ds2, pk, dones) =>
      let w3 := Realm.stepEnv E w2 ds2
      let pk1 := Realm.getStims E cfg w3 ds2 pk
      .ok ({ world := w3, desciples := ds2, spawner := sp2, entID := t.1
             tick := r.tick + 1 },
           { stims := pk1.map (fun x => x.2.stim)
             rewards := pk1.map (fun x => x.2.reward)
             dones := dones })

/-- Realm.reset (realm.py lines 123-126): assert that no tick has elapsed
(the assert fires before any mutation, so a failed reset changes
nothing), then literally return self.step({}). -/
def Realm.reset (E : Collab) (cfg : Config) (h : String → Int) (r : RealmState) :
    Except String (RealmState × Output) :=
  if r.tick = 0 then Realm.step E cfg h r [] else .error resetMsg

/-- A sequence of step calls, recording the identifier produced by the
identity generation of each successful step (Realm.spawn is evaluated on
the same counter the step consumes). -/
def Realm.runSteps (E : Collab) (cfg : Config) (h : String → Int) :
    RealmState → List Decisions → Except String (RealmState × List Nat)
  | r, [] => .ok (r, [])
  | r, d :: rest =>
    match Realm.step E cfg h r d with
    | .error e => .error e
    | .ok (r1, _) =>
      match Realm.runSteps E cfg h r1 rest with
      | .error e => .error e
      | .ok (rf, ids) => .ok (rf, (Realm.spawn h cfg.NPOP r.entID).1 :: ids)

/-- A small concrete configuration for witnesses: cap 4, two populations,
slot size 2. -/
def cfg0 : Config := { NENT := 4, NPOP := 2, STIM := 1 }

/-- A trivial concrete instantiation of the external collaborators for
witnesses: entity behavior is the identity, the world never changes, the
serial number equals the identifier. -/
def Etriv : Collab :=
  { selfStep := fun _ p _ => p
    applyAct := fun _ p _ => p
    advance := fun w _ => w
    stim := fun _ _ _ => 0
    initPos := fun _ => (0, 0)
    serialOf := fun i => i
    colorOf := fun _ => 0
    initWorld := { tiles := fun _ => { ents := [], counts := fun _ => 0 }, ext := 0 } }

/-- A constant hash for witnesses. -/
def hzero : String → Int := fun _ => 0

/-- A concrete hash for the C5 counterexample, separating the strings of
consecutive identifiers. -/
def hcex : String → Int := fun s => if s = "1" then 0 else 1

/-- A ledger at full capacity (cap 4, two populations of slot size 2, both
full), for refusal witnesses. -/
def spFull : Spawner :=
  { nEnt := 4, nPop := 2, popSz := 2, ents := 4, pops := fun _ => 2 }

/-- A dead entity sitting in the entity map, for the C9 witness. -/
def pDead : Player :=
  { entID := 5, pop := 0, name := "Neural_", color := 0, pos := (0, 0)
    alive := false, serial := 55 }

/-- A live entity sitting in the entity map, for the C6 witness. -/
def pLive : Player :=
  { entID := 5, pop := 0, name := "Neural_", color := 0, pos := (0, 0)
    alive := true, serial := 55 }

/-- A realm holding the dead entity 5, identifier counter at 10 (so the
next spawned identifier is 11). -/
def rDead : RealmState :=
  { world := Etriv.initWorld, desciples := [(5, pDead)]
    spawner := Spawner.init cfg0, entID := 10, tick := 0 }

/-- A realm holding the live entity 5, identifier counter at 10. -/
def rLive : RealmState :=
  { world := Etriv.initWorld, desciples := [(5, pLive)]
    spawner := Spawner.init cfg0, entID := 10, tick := 3 }

/-- A decisions mapping in which entity 5 submits an empty action set, for
the C6 witness. -/
def dLive : Decisions := [(5, [])]

/-- The inductive invariant carried along Spawner.Reach: the configured
caps are fixed, every count is nonnegative and within its slot, the total
is within the cap, the total equals the sum of the per-population counts,
and populations outside the configured range hold no entities. -/
def Spawner.Good (cfg : Config) (s : Spawner) : Prop :=
  s.nEnt = cfg.NENT ∧ s.nPop = cfg.NPOP ∧ s.popSz = cfg.NENT / cfg.NPOP ∧
  (∀ p, 0 ≤ s.pops p) ∧ (∀ p, s.pops p ≤ (s.popSz : Int)) ∧
  s.ents ≤ (s.nEnt : Int) ∧
  s.ents = Finset.sum (Finset.range s.nPop) (fun p => s.pops p) ∧
  (∀ p, s.nPop ≤ p → s.pops p = 0)

/-! ### Basic lemmas on the dict embedding -/

theorem lookupA_upsertA_ne {α : Type} (l : List (Nat × α)) (e k : Nat) (v : α)
    (h : k ≠ e) : lookupA (upsertA l e v) k = lookupA l k := by
  induction l with
  | nil => simp [upsertA, lookupA, Ne.symm h]
  | cons hd tl ih =>
    obtain ⟨k1, v1⟩ := hd
    by_cases hk : k1 = e
    · subst hk
      simp [upsertA, lookupA, Ne.symm h]
    · simp [upsertA, lookupA, hk, ih]

theorem lookupA_upsertA_self {α : Type} (l : List (Nat × α)) (e : Nat) (v : α) :
    lookupA (upsertA l e v) e = some v := by
  induction l with
  | nil => simp [upsertA, lookupA]
  | cons hd tl ih =>
    obtain ⟨k1, v1⟩ := hd
    by_cases hk : k1 = e
    · subst hk; simp [upsertA, lookupA]
    · simp [upsertA, lookupA, hk, ih]

theorem lookupA_removeA_ne {α : Type} (l : List (Nat × α)) (e k : Nat)
    (h : k ≠ e) : lookupA (removeA l e) k = lookupA l k := by
  induction l with
  | nil => simp [removeA]
  | cons hd tl ih =>
    obtain ⟨k1, v1⟩ := hd
    by_cases hk : k1 = e
    · subst hk; simp [removeA, lookupA, Ne.symm h]
    · simp [removeA, lookupA, hk, ih]

theorem mem_of_lookupA_eq_some {α : Type} (l : List (Nat × α)) (k : Nat) (v : α)
    (h : lookupA l k = some v) : (k, v) ∈ l := by
  induction l with
  | nil => simp [lookupA] at h
  | cons hd tl ih =>
    obtain ⟨k1, v1⟩ := hd
    by_cases hk : k1 = k
    · subst hk
      simp [lookupA] at h
      simp [h]
    · simp [lookupA, hk] at h
      simp [ih h]

theorem lookupA_eq_none_iff {α : Type} (l : List (Nat × α)) (k : Nat) :
    lookupA l k = none ↔ k ∉ l.map Prod.fst := by
  induction l with
  | nil => simp [lookupA]
  | cons hd tl ih =>
    obtain ⟨k1, v1⟩ := hd
    by_cases hk : k1 = k
    · subst hk; simp [lookupA]
    · simp [lookupA, hk, ih, Ne.symm hk]

theorem upsertA_keys_of_lookup {α : Type} (l : List (Nat × α)) (e : Nat) (v : α)
    (h : lookupA l e ≠ none) :
    (upsertA l e v).map Prod.fst = l.map Prod.fst := by
  induction l with
  | nil => simp [lookupA] at h
  | cons hd tl ih =>
    obtain ⟨k1, v1⟩ := hd
    by_cases hk : k1 = e
    · subst hk; simp [upsertA]
    · simp [lookupA, hk] at h
      simp [upsertA, hk, ih h]

theorem removeA_keys_sublist {α : Type} (l : List (Nat × α)) (e : Nat) :
    ((removeA l e).map Prod.fst).Sublist (l.map Prod.fst) := by
  induction l with
  | nil => simp [removeA]
  | cons hd tl ih =>
    obtain ⟨k1, v1⟩ := hd
    by_cases hk : k1 = e
    · subst hk
      simpa [removeA] using (List.sublist_cons_self _ _)
    · simpa [removeA, hk] using ih.cons₂ k1

theorem not_mem_keys_removeA {α : Type} (l : List (Nat × α)) (e : Nat)
    (h : (l.map Prod.fst).Nodup) : e ∉ (removeA l e).map Prod.fst := by
  induction l with
  | nil => simp [removeA]
  | cons hd tl ih =>
    obtain ⟨k1, v1⟩ := hd
    rw [List.map_cons, List.nodup_cons] at h
    by_cases hk : k1 = e
    · subst hk
      simpa [removeA] using h.1
    · rw [show removeA ((k1, v1) :: tl) e = (k1, v1) :: removeA tl e from by
        simp [removeA, hk]]
      rw [List.map_cons]
      intro hmem
      rcases List.mem_cons.mp hmem with h1 | h2
      · exact hk h1.symm
      · exact ih h.2 h2

theorem nodup_keys_removeA {α : Type} (l : List (Nat × α)) (e : Nat)
    (h : (l.map Prod.fst).Nodup) : ((removeA l e).map Prod.fst).Nodup :=
  (removeA_keys_sublist l e).nodup h

/-! ### C3 and C4: prioritization and tier application order -/

/-- C3: in Realm.prioritize, the dict assignment actions[priority][entID]
overwrites, so when one entity submits two actions of the same priority in
one tick the LAST action encountered is kept, not the first: entity 1
submits action id 0 then action id 1, both of priority 5, and the
surviving entry is action id 1.  This contradicts both the spec and the
docstring of prioritize (realm.py line 176, "Only saves the first action
of each priority"), so the code is at odds with its own documentation. -/
theorem prioritize_keeps_last_same_priority :
    Realm.prioritize [(1, [({ id := 0, priority := 5 }, 10), ({ id := 1, priority := 5 }, 20)])]
      = [(5, [(1, ({ id := 1, priority := 5 }, 20))])] ∧
    ({ id := 1, priority := 5 } : Atn) ≠ { id := 0, priority := 5 } :=
  ⟨rfl, by decide⟩

/-- C4 counterexample: with entity 1 submitting a priority-2 action and
entity 2 submitting a priority-1 action (in that dict order), the tier
iteration order of Realm.act, which is the key order of the prioritized
buckets, is [2, 1]: not ascending, so the priority-1 action is applied
after the priority-2 one, refuting the claimed ascending tier order. -/
theorem act_tier_order_not_ascending :
    ¬ List.Pairwise (· ≤ ·)
      ((Realm.prioritize
          [(1, [({ id := 0, priority := 2 }, 0)]), (2, [({ id := 1, priority := 1 }, 0)])]).map
        Prod.fst) := by
  decide

theorem bucketInsert_keys (acc : Buckets) (p e : Nat) (v : Atn × Args) :
    (bucketInsert acc p e v).map Prod.fst =
      if p ∈ acc.map Prod.fst then acc.map Prod.fst else acc.map Prod.fst ++ [p] := by
  induction acc with
  | nil => simp [bucketInsert]
  | cons hd tl ih =>
    obtain ⟨q, b⟩ := hd
    by_cases hq : q = p
    · subst hq; simp [bucketInsert]
    · by_cases hp : p ∈ tl.map Prod.fst
      · simp [bucketInsert, hq, ih, hp, Ne.symm hq]
      · simp [bucketInsert, hq, ih, hp, Ne.symm hq]

theorem prioritizeInner_keys (entID : Nat) (atns : List (Atn × Args)) (acc : Buckets) :
    (prioritizeInner entID acc atns).map Prod.fst =
      (atns.map (fun av => av.1.priority)).foldl
        (fun ks p => if p ∈ ks then ks else ks ++ [p]) (acc.map Prod.fst) := by
  induction atns generalizing acc with
  | nil => rfl
  | cons hd tl ih => simp [prioritizeInner, ih, bucketInsert_keys]

theorem prioritizeAux_keys (d : Decisions) (acc : Buckets) :
    (Realm.prioritizeAux acc d).map Prod.fst =
      (prioritySeq d).foldl (fun ks p => if p ∈ ks then ks else ks ++ [p])
        (acc.map Prod.fst) := by
  induction d generalizing acc with
  | nil => rfl
  | cons hd tl ih =>
    simp [Realm.prioritizeAux, prioritySeq, ih, prioritizeInner_keys, List.foldl_append]

/-- C4 (amended): the apply phase iterates the priority tiers in the order
in which each priority value is first encountered while flattening the
decisions mapping (dict insertion order), not in ascending numeric order:
Realm.act walks the buckets of Realm.prioritize in list order, and their
key list is exactly the first-occurrence order of the submitted
priorities. -/
theorem prioritize_tier_order_first_encounter (d : Decisions) :
    (Realm.prioritize d).map Prod.fst = firstOccur (prioritySeq d) := by
  unfold Realm.prioritize firstOccur
  simpa using prioritizeAux_keys d []

/-! ### C5: population derivation in identity generation -/

/-- C5 counterexample: with the hash hcex and two populations, a call of
Realm.spawn at identifier counter 1 returns identifier 2 but derives the
population from hash(str(1)), giving 0, while hash(str(2)) mod 2 = 1: the
population is not the hash of the returned identifier. -/
theorem spawn_pop_not_hash_of_returned_iden :
    ¬ ((Realm.spawn hcex 2 1).2.1
        = ((hcex (toString (Realm.spawn hcex 2 1).1)).emod 2).toNat) := by
  decide

/-- C5 (amended): Realm.spawn returns the incremented identifier, and the
population it derives is the hash of the string of the PREVIOUS counter
value, i.e. of (returned identifier - 1), reduced modulo the population
count. -/
theorem spawn_pop_hash_of_pred_iden (h : String → Int) (nPop entID : Nat) :
    (Realm.spawn h nPop entID).1 = entID + 1 ∧
    (Realm.spawn h nPop entID).2.1
      = ((h (toString ((Realm.spawn h nPop entID).1 - 1))).emod (nPop : Int)).toNat := by
  refine ⟨rfl, ?_⟩
  simp [Realm.spawn]

/-! ### C1: admission behavior of Spawner.spawn -/

theorem spawnCounts_eq_none_iff (sp : Spawner) (pop : Nat) :
    Spawner.spawnCounts sp pop = none ↔
      (sp.ents = (sp.nEnt : Int) ∨ sp.pops pop = (sp.popSz : Int)) := by
  unfold Spawner.spawnCounts
  split_ifs with h1 h2 <;> simp_all

theorem spawnCounts_eq_some (sp : Spawner) (pop : Nat) (sp1 : Spawner)
    (h : Spawner.spawnCounts sp pop = some sp1) :
    sp1 = { sp with
            pops := fun q => if q = pop then sp.pops pop + 1 else sp.pops q
            ents := sp.ents + 1 } ∧
    sp.ents ≠ (sp.nEnt : Int) ∧ sp.pops pop ≠ (sp.popSz : Int) := by
  have hne : ¬ (Spawner.spawnCounts sp pop = none) := by simp [h]
  rw [spawnCounts_eq_none_iff] at hne
  push_neg at hne
  obtain ⟨hne1, hne2⟩ := hne
  refine ⟨?_, hne1, hne2⟩
  unfold Spawner.spawnCounts at h
  rw [if_neg hne1, if_neg hne2] at h
  exact (Option.some.inj h).symm

/-- C1 counterexample: on an empty ledger with spare capacity (so neither
refusal condition holds), Spawner.spawn succeeds but its returned value is
Python None, not True: admission success is signalled only through the
mutated state, refuting the claim that a successful call returns true. -/
theorem spawner_spawn_returns_none_on_success :
    (Spawner.init cfg0).ents ≠ ((Spawner.init cfg0).nEnt : Int) ∧
    (Spawner.init cfg0).pops 0 ≠ ((Spawner.init cfg0).popSz : Int) ∧
    (Spawner.spawn Etriv (Spawner.init cfg0) Etriv.initWorld [] 2 0 "Neural_").toOption.map
        (fun x => x.1) = some none ∧
    some (none : Option Bool) ≠ some (some true) :=
  ⟨by decide, by decide, rfl, by decide⟩

/-- C1 (amended): when the two count asserts pass, Spawner.spawn refuses
admission, with the returned value None and the ledger, the entity map and
the grid all returned unchanged, exactly when the total count equals the
entity cap or the population count equals the slot size; otherwise it
increments that population count and the total count (registering the new
entity) and again returns None (the Python body has no return on the
success path), not true. -/
theorem spawner_spawn_refusal_and_success (E : Collab) (sp : Spawner) (w : World)
    (ds : List (Nat × Player)) (iden pop : Nat) (name : String)
    (h1 : sp.pops pop ≤ (sp.popSz : Int)) (h2 : sp.ents ≤ (sp.nEnt : Int)) :
    ((sp.ents = (sp.nEnt : Int) ∨ sp.pops pop = (sp.popSz : Int)) →
        Spawner.spawn E sp w ds iden pop name = .ok (none, sp, w, ds)) ∧
    (sp.ents ≠ (sp.nEnt : Int) → sp.pops pop ≠ (sp.popSz : Int) →
        ∃ sp1 w1 ds1,
          Spawner.spawn E sp w ds iden pop name = .ok (none, sp1, w1, ds1) ∧
          sp1.pops pop = sp.pops pop + 1 ∧ sp1.ents = sp.ents + 1 ∧
          (∀ q, q ≠ pop → sp1.pops q = sp.pops q)) := by
  constructor
  · intro href
    have hco : Spawner.spawnCounts sp pop = none := (spawnCounts_eq_none_iff sp pop).mpr href
    unfold Spawner.spawn
    rw [if_pos h1, if_pos h2, hco]
  · intro hne1 hne2
    rcases hco : Spawner.spawnCounts sp pop with _ | sp1
    · rcases (spawnCounts_eq_none_iff sp pop).mp hco with hc | hc
      · exact absurd hc hne1
      · exact absurd hc hne2
    · obtain ⟨hs1, -, -⟩ := spawnCounts_eq_some sp pop sp1 hco
      have heq : Spawner.spawn E sp w ds iden pop name
          = .ok (none, sp1,
              World.updateTile w (Collab.mkPlayer E iden pop name (E.colorOf pop)).pos
                (fun tl =>
                  { tl with
                    ents := upsertA tl.ents iden (Collab.mkPlayer E iden pop name (E.colorOf pop))
                    counts := fun q =>
                      if q = (Collab.mkPlayer E iden pop name (E.colorOf pop)).pop
                      then tl.counts (Collab.mkPlayer E iden pop name (E.colorOf pop)).pop + 1
                      else tl.counts q }),
              upsertA ds (Collab.mkPlayer E iden pop name (E.colorOf pop)).entID
                (Collab.mkPlayer E iden pop name (E.colorOf pop))) := by
        unfold Spawner.spawn
        rw [if_pos h1, if_pos h2, hco]
      refine ⟨sp1, _, _, heq, ?_, ?_, ?_⟩
      · rw [hs1]
        simp
      · rw [hs1]
      · intro q hq
        rw [hs1]
        simp [hq]

/-- C1 witness: the refusal branch at the full ledger spFull leaves
everything unchanged, and the success branch on the fresh ledger
increments population 0 and the total. -/
theorem spawner_spawn_refusal_and_success_witness :
    (Spawner.spawn Etriv spFull Etriv.initWorld [] 2 0 "Neural_"
        = .ok (none, spFull, Etriv.initWorld, [])) ∧
    (∃ sp1 w1 ds1,
        Spawner.spawn Etriv (Spawner.init cfg0) Etriv.initWorld [] 2 0 "Neural_"
          = .ok (none, sp1, w1, ds1) ∧
        sp1.pops 0 = (Spawner.init cfg0).pops 0 + 1 ∧
        sp1.ents = (Spawner.init cfg0).ents + 1 ∧
        (∀ q, q ≠ 0 → sp1.pops q = (Spawner.init cfg0).pops q)) := by
  constructor
  · exact (spawner_spawn_refusal_and_success Etriv spFull Etriv.initWorld [] 2 0 "Neural_"
      (by decide) (by decide)).1 (Or.inl (by decide))
  · exact (spawner_spawn_refusal_and_success Etriv (Spawner.init cfg0) Etriv.initWorld [] 2 0
      "Neural_" (by decide) (by decide)).2 (by decide) (by decide)

/-! ### C2: the ledger invariants along every reachable trace -/

theorem good_init (cfg : Config) : Spawner.Good cfg (Spawner.init cfg) := by
  refine ⟨rfl, rfl, rfl, ?_, ?_, ?_, ?_, ?_⟩
  · intro p
    exact le_refl 0
  · intro p
    show (0 : Int) ≤ ((cfg.NENT / cfg.NPOP : Nat) : Int)
    exact Int.natCast_nonneg _
  · show (0 : Int) ≤ (cfg.NENT : Int)
    exact Int.natCast_nonneg _
  · show (0 : Int) = Finset.sum (Finset.range cfg.NPOP) (fun _ => (0 : Int))
    simp
  · intro p _
    rfl

theorem good_spawnCounts (cfg : Config) (s s1 : Spawner) (pop : Nat)
    (hg : Spawner.Good cfg s) (hpop : pop < cfg.NPOP)
    (h : Spawner.spawnCounts s pop = some s1) : Spawner.Good cfg s1 := by
  obtain ⟨hn, hp, hz, hnonneg, hslot, hcap, hsum, hout⟩ := hg
  obtain ⟨hs1, hne1, hne2⟩ := spawnCounts_eq_some s pop s1 h
  subst hs1
  have hpop2 : pop < s.nPop := by rw [hp]; exact hpop
  refine ⟨hn, hp, hz, ?_, ?_, ?_, ?_, ?_⟩
  · intro p
    show (0 : Int) ≤ if p = pop then s.pops pop + 1 else s.pops p
    by_cases hq : p = pop
    · rw [if_pos hq]
      have := hnonneg pop
      omega
    · rw [if_neg hq]
      exact hnonneg p
  · intro p
    show (if p = pop then s.pops pop + 1 else s.pops p) ≤ (s.popSz : Int)
    by_cases hq : p = pop
    · rw [if_pos hq]
      have ha := hslot pop
      omega
    · rw [if_neg hq]
      exact hslot p
  · show s.ents + 1 ≤ (s.nEnt : Int)
    omega
  · show s.ents + 1 = Finset.sum (Finset.range s.nPop)
      (fun p => if p = pop then s.pops pop + 1 else s.pops p)
    have hcongr : ∀ p ∈ Finset.range s.nPop,
        (if p = pop then s.pops pop + 1 else s.pops p)
          = s.pops p + (if p = pop then 1 else 0) := by
      intro p _
      by_cases hq : p = pop
      · subst hq
        simp
      · simp [hq]
    rw [Finset.sum_congr rfl hcongr, Finset.sum_add_distrib,
      Finset.sum_ite_eq' (Finset.range s.nPop) pop (fun _ => (1 : Int))]
    rw [if_pos (Finset.mem_range.mpr hpop2), ← hsum]
  · intro p hple
    have hple2 : s.nPop ≤ p := hple
    have hne : p ≠ pop := by omega
    show (if p = pop then s.pops pop + 1 else s.pops p) = 0
    rw [if_neg hne]
    exact hout p hple2

theorem cull_eq_ok (sp : Spawner) (pop : Nat) (sp1 : Spawner)
    (h : Spawner.cull sp pop = .ok sp1) :
    sp1 = { sp with
            pops := fun q => if q = pop then sp.pops pop - 1 else sp.pops q
            ents := sp.ents - 1 } ∧
    1 ≤ sp.pops pop ∧ 1 ≤ sp.ents := by
  unfold Spawner.cull at h
  by_cases h1 : 1 ≤ sp.pops pop
  · rw [if_pos h1] at h
    by_cases h2 : 1 ≤ sp.ents
    · rw [if_pos h2] at h
      exact ⟨(Except.ok.inj h).symm, h1, h2⟩
    · rw [if_neg h2] at h
      exact absurd h (by simp)
  · rw [if_neg h1] at h
    exact absurd h (by simp)

theorem good_cull (cfg : Config) (s s1 : Spawner) (pop : Nat)
    (hg : Spawner.Good cfg s) (h : Spawner.cull s pop = .ok s1) :
    Spawner.Good cfg s1 := by
  obtain ⟨hn, hp, hz, hnonneg, hslot, hcap, hsum, hout⟩ := hg
  obtain ⟨hs1, h1, h2⟩ := cull_eq_ok s pop s1 h
  subst hs1
  have hpop2 : pop < s.nPop := by
    by_contra hge
    have := hout pop (by omega)
    omega
  refine ⟨hn, hp, hz, ?_, ?_, ?_, ?_, ?_⟩
  · intro p
    show (0 : Int) ≤ if p = pop then s.pops pop - 1 else s.pops p
    by_cases hq : p = pop
    · rw [if_pos hq]
      omega
    · rw [if_neg hq]
      exact hnonneg p
  · intro p
    show (if p = pop then s.pops pop - 1 else s.pops p) ≤ (s.popSz : Int)
    by_cases hq : p = pop
    · rw [if_pos hq]
      have := hslot pop
      omega
    · rw [if_neg hq]
      exact hslot p
  · show s.ents - 1 ≤ (s.nEnt : Int)
    omega
  · show s.ents - 1 = Finset.sum (Finset.range s.nPop)
      (fun p => if p = pop then s.pops pop - 1 else s.pops p)
    have hcongr : ∀ p ∈ Finset.range s.nPop,
        (if p = pop then s.pops pop - 1 else s.pops p)
          = s.pops p + (if p = pop then -1 else 0) := by
      intro p _
      by_cases hq : p = pop
      · subst hq
        rw [if_pos rfl, if_pos rfl]
        omega
      · simp [hq]
    rw [Finset.sum_congr rfl hcongr, Finset.sum_add_distrib,
      Finset.sum_ite_eq' (Finset.range s.nPop) pop (fun _ => (-1 : Int))]
    rw [if_pos (Finset.mem_range.mpr hpop2), ← hsum]
    ring
  · intro p hple
    have hple2 : s.nPop ≤ p := hple
    have hne : p ≠ pop := by
      intro hq
      subst hq
      have := hout p hple2
      omega
    show (if p = pop then s.pops pop - 1 else s.pops p) = 0
    rw [if_neg hne]
    exact hout p hple2

theorem reach_good (cfg : Config) (s : Spawner) (h : Spawner.Reach cfg s) :
    Spawner.Good cfg s := by
  induction h with
  | init => exact good_init cfg
  | spawn_ok hr hpop hco ih => exact good_spawnCounts cfg _ _ _ ih hpop hco
  | spawn_refuse hr hco ih => exact ih
  | cull_ok hr hco ih => exact good_cull cfg _ _ _ ih hco

/-- C2: along every ledger trace the tick pipeline can produce (one
admission attempt per step with population index below NPOP, plus any
asserted culls), every population count stays at most the slot size
NENT // NPOP, the sum of all population counts stays at most the entity
cap NENT, and no count (population or total) is ever negative. -/
theorem ledger_counts_invariant (cfg : Config) (s : Spawner)
    (h : Spawner.Reach cfg s) :
    (∀ p, s.pops p ≤ ((cfg.NENT / cfg.NPOP : Nat) : Int)) ∧
    Finset.sum (Finset.range cfg.NPOP) (fun p => s.pops p) ≤ (cfg.NENT : Int) ∧
    (∀ p, 0 ≤ s.pops p) ∧ 0 ≤ s.ents := by
  obtain ⟨hn, hp, hz, hnonneg, hslot, hcap, hsum, hout⟩ := reach_good cfg s h
  refine ⟨?_, ?_, hnonneg, ?_⟩
  · intro p
    have := hslot p
    rw [hz] at this
    exact this
  · rw [← hp, ← hsum, ← hn]
    exact hcap
  · rw [hsum]
    exact Finset.sum_nonneg (fun p _ => hnonneg p)

/-- C2 witness: the invariant holds at the freshly initialized ledger. -/
theorem ledger_counts_invariant_witness :
    (∀ p, (Spawner.init cfg0).pops p ≤ ((cfg0.NENT / cfg0.NPOP : Nat) : Int)) ∧
    Finset.sum (Finset.range cfg0.NPOP) (fun p => (Spawner.init cfg0).pops p)
      ≤ (cfg0.NENT : Int) ∧
    (∀ p, 0 ≤ (Spawner.init cfg0).pops p) ∧ 0 ≤ (Spawner.init cfg0).ents :=
  ledger_counts_invariant cfg0 (Spawner.init cfg0) Spawner.Reach.init

/-! ### C7, C8, C10: tick counter, reset, and identity generation -/

theorem step_ok_proj (E : Collab) (cfg : Config) (h : String → Int)
    (r : RealmState) (d : Decisions) (x : RealmState × Output)
    (hx : Realm.step E cfg h r d = .ok x) :
    x.1.tick = r.tick + 1 ∧ x.1.entID = r.entID + 1 := by
  rw [Realm.step] at hx
  split at hx
  · exact absurd hx (by simp)
  · split at hx
    · exact absurd hx (by simp)
    · injection hx with hx
      subst hx
      exact ⟨rfl, rfl⟩

/-- C7: Realm.reset called at tick 0 is literally the call step({}) (same
state transition, same return value); called when the tick counter is
nonzero it fails with the fatal restart message before any mutation; and
after any successful step call the tick counter is nonzero, so a
subsequent reset fails with that message. -/
theorem reset_once_semantics (E : Collab) (cfg : Config) (h : String → Int)
    (r : RealmState) :
    (r.tick = 0 → Realm.reset E cfg h r = Realm.step E cfg h r []) ∧
    (r.tick ≠ 0 → Realm.reset E cfg h r = .error resetMsg) ∧
    (∀ d x, Realm.step E cfg h r d = .ok x →
        Realm.reset E cfg h x.1 = .error resetMsg) := by
  refine ⟨?_, ?_, ?_⟩
  · intro h0
    unfold Realm.reset
    rw [if_pos h0]
  · intro h0
    unfold Realm.reset
    rw [if_neg h0]
  · intro d x hx
    have ht := (step_ok_proj E cfg h r d x hx).1
    unfold Realm.reset
    rw [if_neg (by omega)]

/-- C7 witness: at the initial realm reset equals step({}); on a realm at
tick 3 reset fails; and after one successful step from the initial realm
reset fails. -/
theorem reset_once_semantics_witness :
    (Realm.reset Etriv cfg0 hzero (Realm.init Etriv cfg0)
        = Realm.step Etriv cfg0 hzero (Realm.init Etriv cfg0) []) ∧
    (Realm.reset Etriv cfg0 hzero rLive = .error resetMsg) ∧
    (∃ x, Realm.step Etriv cfg0 hzero (Realm.init Etriv cfg0) [] = .ok x ∧
        Realm.reset Etriv cfg0 hzero x.1 = .error resetMsg) := by
  refine ⟨(reset_once_semantics Etriv cfg0 hzero (Realm.init Etriv cfg0)).1 rfl,
    (reset_once_semantics Etriv cfg0 hzero rLive).2.1 (by decide), ?_⟩
  exact ⟨_, rfl,
    (reset_once_semantics Etriv cfg0 hzero (Realm.init Etriv cfg0)).2.2 [] _ rfl⟩

theorem runSteps_ids (E : Collab) (cfg : Config) (h : String → Int)
    (ds : List Decisions) :
    ∀ (r : RealmState) (x : RealmState × List Nat),
      Realm.runSteps E cfg h r ds = .ok x →
      x.2 = List.range' (r.entID + 1) ds.length := by
  induction ds with
  | nil =>
    intro r x hx
    rw [Realm.runSteps] at hx
    injection hx with hx
    subst hx
    rfl
  | cons d rest ih =>
    intro r x hx
    rw [Realm.runSteps] at hx
    split at hx
    · exact absurd hx (by simp)
    · rename_i o r1 out heq
      split at hx
      · exact absurd hx (by simp)
      · rename_i o2 rf ids heq2
        injection hx with hx
        subst hx
        have hids := ih r1 (rf, ids) heq2
        have hent : r1.entID = r.entID + 1 := (step_ok_proj E cfg h r d (r1, out) heq).2
        simp only at hids
        rw [hids, hent]
        rfl

/-- C8: along every successful sequence of step calls, the identifiers
produced by identity generation (Realm.spawn, recorded by Realm.runSteps)
are strictly increasing in order of production, hence pairwise distinct
and never reused for the lifetime of the realm. -/
theorem step_ids_strict_mono (E : Collab) (cfg : Config) (h : String → Int)
    (r : RealmState) (ds : List Decisions) (x : RealmState × List Nat)
    (hx : Realm.runSteps E cfg h r ds = .ok x) :
    List.Pairwise (· < ·) x.2 := by
  rw [runSteps_ids E cfg h ds r x hx]
  exact List.pairwise_lt_range' _ _

/-- C8 witness: two steps from the initial realm produce the identifier
list [2, 3], which is strictly increasing. -/
theorem step_ids_strict_mono_witness :
    ∃ x, Realm.runSteps Etriv cfg0 hzero (Realm.init Etriv cfg0) [[], []] = .ok x ∧
      List.Pairwise (· < ·) x.2 :=
  ⟨_, rfl, step_ids_strict_mono Etriv cfg0 hzero (Realm.init Etriv cfg0) [[], []] _ rfl⟩

/-- C10: identity generation is total: its result is a Nat (the Python
function always returns the incremented integer counter, so the fatal
None-check after it in Realm.step can never fire), and from the initial
realm (counter 1) every successful sequence of n step calls produces
exactly the identifiers 2, 3, ..., n + 1: the first call yields 2 and each
call increases the identifier by exactly 1. -/
theorem spawn_ids_total_from_init (E : Collab) (cfg : Config) (h : String → Int)
    (ds : List Decisions) (x : RealmState × List Nat)
    (hx : Realm.runSteps E cfg h (Realm.init E cfg) ds = .ok x) :
    x.2 = List.range' 2 ds.length := by
  have hr := runSteps_ids E cfg h ds (Realm.init E cfg) x hx
  simpa [Realm.init] using hr

/-- C10 witness: three steps from the initial realm produce exactly
[2, 3, 4] (the third admission is refused by the full population slot but
identity generation still yields 4). -/
theorem spawn_ids_total_from_init_witness :
    ∃ x, Realm.runSteps Etriv cfg0 hzero (Realm.init Etriv cfg0) [[], [], []] = .ok x ∧
      x.2 = List.range' 2 3 :=
  ⟨_, rfl, spawn_ids_total_from_init Etriv cfg0 hzero [[], [], []] _ rfl⟩

/-! ### Further dict lemmas, towards C6 and C9 -/

theorem upsertA_keys {α : Type} (l : List (Nat × α)) (e : Nat) (v : α) :
    (upsertA l e v).map Prod.fst =
      if e ∈ l.map Prod.fst then l.map Prod.fst else l.map Prod.fst ++ [e] := by
  induction l with
  | nil => simp [upsertA]
  | cons hd tl ih =>
    obtain ⟨k1, v1⟩ := hd
    by_cases hk : k1 = e
    · subst hk; simp [upsertA]
    · by_cases he : e ∈ tl.map Prod.fst
      · simp [upsertA, hk, ih, he, Ne.symm hk]
      · simp [upsertA, hk, ih, he, Ne.symm hk]

theorem nodup_keys_upsertA {α : Type} (l : List (Nat × α)) (e : Nat) (v : α)
    (h : (l.map Prod.fst).Nodup) : ((upsertA l e v).map Prod.fst).Nodup := by
  rw [upsertA_keys]
  by_cases he : e ∈ l.map Prod.fst
  · rw [if_pos he]; exact h
  · rw [if_neg he]
    rw [List.nodup_append]
    refine ⟨h, List.nodup_singleton e, ?_⟩
    intro a ha hb
    simp at hb
    subst hb
    exact he ha

theorem mem_upsertA {α : Type} (l : List (Nat × α)) (e : Nat) (v : α) (k : Nat) (x : α)
    (h : (k, x) ∈ upsertA l e v) : (k, x) ∈ l ∨ k = e := by
  induction l with
  | nil =>
    simp [upsertA] at h
    simp [h]
  | cons hd tl ih =>
    obtain ⟨k1, v1⟩ := hd
    by_cases hk : k1 = e
    · subst hk
      simp [upsertA] at h
      rcases h with ⟨hk, hx⟩ | hmem
      · simp [hk]
      · simp [hmem]
    · simp [upsertA, hk] at h
      rcases h with ⟨hk2, hx⟩ | hmem
      · simp [hk2, hx]
      · rcases ih hmem with h1 | h2
        · simp [h1]
        · simp [h2]

theorem pktModify_mem (l : List (Nat × Pkt)) (e : Nat) (f : Pkt → Pkt) (k : Nat) (q : Pkt)
    (h : (k, q) ∈ pktModify l e f) :
    (k, q) ∈ l ∨ (k = e ∧ (∃ q0, lookupA l e = some q0 ∧ q = f q0)) ∨
      (k = e ∧ lookupA l e = none ∧ q = f {}) := by
  induction l with
  | nil =>
    simp [pktModify] at h
    simp [h, lookupA]
  | cons hd tl ih =>
    obtain ⟨k1, q1⟩ := hd
    by_cases hk : k1 = e
    · subst hk
      simp [pktModify] at h
      rcases h with ⟨hk, hx⟩ | hmem
      · subst hk
        right; left
        exact ⟨rfl, q1, by simp [lookupA], hx⟩
      · simp [hmem]
    · simp [pktModify, hk] at h
      rcases h with ⟨hk2, hx⟩ | hmem
      · left; simp [hk2, hx]
      · rcases ih hmem with h1 | h2 | h3
        · simp [h1]
        · right; left
          refine ⟨h2.1, ?_⟩
          rw [show lookupA ((k1, q1) :: tl) e = lookupA tl e from by simp [lookupA, hk]]
          exact h2.2
        · right; right
          refine ⟨h3.1, ?_, h3.2.2⟩
          rw [show lookupA ((k1, q1) :: tl) e = lookupA tl e from by simp [lookupA, hk]]
          exact h3.2.1

theorem lookupA_pktModify_self (l : List (Nat × Pkt)) (e : Nat) (f : Pkt → Pkt) :
    lookupA (pktModify l e f) e = some (f ((lookupA l e).getD {})) := by
  induction l with
  | nil => simp [pktModify, lookupA]
  | cons hd tl ih =>
    obtain ⟨k1, q1⟩ := hd
    by_cases hk : k1 = e
    · subst hk; simp [pktModify, lookupA]
    · simp [pktModify, lookupA, hk, ih]

theorem lookupA_pktModify_ne (l : List (Nat × Pkt)) (e : Nat) (f : Pkt → Pkt) (k : Nat)
    (h : k ≠ e) : lookupA (pktModify l e f) k = lookupA l k := by
  induction l with
  | nil => simp [pktModify, lookupA, Ne.symm h]
  | cons hd tl ih =>
    obtain ⟨k1, q1⟩ := hd
    by_cases hk : k1 = e
    · subst hk; simp [pktModify, lookupA, Ne.symm h]
    · simp [pktModify, lookupA, hk, ih]

theorem pktModify_keys (l : List (Nat × Pkt)) (e : Nat) (f : Pkt → Pkt) :
    (pktModify l e f).map Prod.fst =
      if e ∈ l.map Prod.fst then l.map Prod.fst else l.map Prod.fst ++ [e] := by
  induction l with
  | nil => simp [pktModify]
  | cons hd tl ih =>
    obtain ⟨k1, q1⟩ := hd
    by_cases hk : k1 = e
    · subst hk; simp [pktModify]
    · by_cases he : e ∈ tl.map Prod.fst
      · simp [pktModify, hk, ih, he, Ne.symm hk]
      · simp [pktModify, hk, ih, he, Ne.symm hk]

theorem mem_keys_pktModify_mono (l : List (Nat × Pkt)) (e : Nat) (f : Pkt → Pkt)
    (k : Nat) (h : k ∈ l.map Prod.fst) : k ∈ (pktModify l e f).map Prod.fst := by
  rw [pktModify_keys]
  by_cases he : e ∈ l.map Prod.fst
  · rw [if_pos he]; exact h
  · rw [if_neg he]; exact List.mem_append_left _ h

theorem lookupA_some_mem_keys {α : Type} (l : List (Nat × α)) (k : Nat) (v : α)
    (h : lookupA l k = some v) : k ∈ l.map Prod.fst :=
  List.mem_map.mpr ⟨(k, v), mem_of_lookupA_eq_some l k v h, rfl⟩

theorem mem_setAdd (l : List Nat) (x y : Nat) (h : y ∈ setAdd l x) :
    y ∈ l ∨ y = x := by
  unfold setAdd at h
  by_cases hx : x ∈ l
  · rw [if_pos hx] at h
    exact Or.inl h
  · rw [if_neg hx] at h
    rcases List.mem_append.mp h with h1 | h2
    · exact Or.inl h1
    · simp at h2
      exact Or.inr h2

/-! ### Preservation lemmas for the self-step and act loops -/

theorem selfStepEnts_ok_keys (E : Collab) (w : World) (d : Decisions) :
    ∀ ds ds1, Realm.selfStepEnts E w ds d = .ok ds1 →
      ds1.map Prod.fst = ds.map Prod.fst := by
  induction d with
  | nil =>
    intro ds ds1 hh
    rw [Realm.selfStepEnts] at hh
    injection hh with hh
    rw [hh]
  | cons hd rest ih =>
    obtain ⟨entID, atns⟩ := hd
    intro ds ds1 hh
    rw [Realm.selfStepEnts] at hh
    split at hh
    · exact absurd hh (by simp)
    · rename_i ent hlk
      rw [ih _ _ hh, upsertA_keys_of_lookup ds entID _ (by simp [hlk])]

theorem selfStepEnts_ok_lookup_ne (E : Collab) (w : World) (d : Decisions) :
    ∀ ds ds1 (e : Nat), e ∉ d.map Prod.fst →
      Realm.selfStepEnts E w ds d = .ok ds1 → lookupA ds1 e = lookupA ds e := by
  induction d with
  | nil =>
    intro ds ds1 e _ hh
    rw [Realm.selfStepEnts] at hh
    injection hh with hh
    rw [hh]
  | cons hd rest ih =>
    obtain ⟨entID, atns⟩ := hd
    intro ds ds1 e he hh
    rw [List.map_cons, List.mem_cons] at he
    push_neg at he
    rw [Realm.selfStepEnts] at hh
    split at hh
    · exact absurd hh (by simp)
    · rename_i ent hlk
      rw [ih _ _ e he.2 hh, lookupA_upsertA_ne ds entID e _ he.1]

theorem selfStepEnts_ok_serial (E : Collab) (w : World)
    (hser : ∀ w2 q a, (E.selfStep w2 q a).serial = q.serial) (d : Decisions) :
    ∀ ds ds1 (k : Nat) (q1 : Player),
      Realm.selfStepEnts E w ds d = .ok ds1 → lookupA ds1 k = some q1 →
      ∃ q0, lookupA ds k = some q0 ∧ q1.serial = q0.serial := by
  induction d with
  | nil =>
    intro ds ds1 k q1 hh hq
    rw [Realm.selfStepEnts] at hh
    injection hh with hh
    subst hh
    exact ⟨q1, hq, rfl⟩
  | cons hd rest ih =>
    obtain ⟨entID, atns⟩ := hd
    intro ds ds1 k q1 hh hq
    rw [Realm.selfStepEnts] at hh
    split at hh
    · exact absurd hh (by simp)
    · rename_i ent hlk
      obtain ⟨qm, hqm, hs⟩ := ih _ _ k q1 hh hq
      by_cases hk : k = entID
      · subst hk
        rw [lookupA_upsertA_self] at hqm
        injection hqm with hqm
        refine ⟨ent, hlk, ?_⟩
        rw [hs, ← hqm, hser]
      · rw [lookupA_upsertA_ne ds entID k _ hk] at hqm
        exact ⟨qm, hqm, hs⟩

theorem actBucket_ok_keys (E : Collab) (w : World) (b : Bucket) :
    ∀ ds ds1, Realm.actBucket E w ds b = .ok ds1 →
      ds1.map Prod.fst = ds.map Prod.fst := by
  induction b with
  | nil =>
    intro ds ds1 hh
    rw [Realm.actBucket] at hh
    injection hh with hh
    rw [hh]
  | cons hd rest ih =>
    obtain ⟨entID, aa⟩ := hd
    intro ds ds1 hh
    rw [Realm.actBucket] at hh
    split at hh
    · exact absurd hh (by simp)
    · rename_i ent hlk
      rw [ih _ _ hh, upsertA_keys_of_lookup ds entID _ (by simp [hlk])]

theorem actBucket_ok_lookup_ne (E : Collab) (w : World) (b : Bucket) :
    ∀ ds ds1 (e : Nat), e ∉ b.map Prod.fst →
      Realm.actBucket E w ds b = .ok ds1 → lookupA ds1 e = lookupA ds e := by
  induction b with
  | nil =>
    intro ds ds1 e _ hh
    rw [Realm.actBucket] at hh
    injection hh with hh
    rw [hh]
  | cons hd rest ih =>
    obtain ⟨entID, aa⟩ := hd
    intro ds ds1 e he hh
    rw [List.map_cons, List.mem_cons] at he
    push_neg at he
    rw [Realm.actBucket] at hh
    split at hh
    · exact absurd hh (by simp)
    · rename_i ent hlk
      rw [ih _ _ e he.2 hh, lookupA_upsertA_ne ds entID e _ he.1]

theorem actBucket_ok_serial (E : Collab) (w : World)
    (hser : ∀ w2 q aa, (E.applyAct w2 q aa).serial = q.serial) (b : Bucket) :
    ∀ ds ds1 (k : Nat) (q1 : Player),
      Realm.actBucket E w ds b = .ok ds1 → lookupA ds1 k = some q1 →
      ∃ q0, lookupA ds k = some q0 ∧ q1.serial = q0.serial := by
  induction b with
  | nil =>
    intro ds ds1 k q1 hh hq
    rw [Realm.actBucket] at hh
    injection hh with hh
    subst hh
    exact ⟨q1, hq, rfl⟩
  | cons hd rest ih =>
    obtain ⟨entID, aa⟩ := hd
    intro ds ds1 k q1 hh hq
    rw [Realm.actBucket] at hh
    split at hh
    · exact absurd hh (by simp)
    · rename_i ent hlk
      obtain ⟨qm, hqm, hs⟩ := ih _ _ k q1 hh hq
      by_cases hk : k = entID
      · subst hk
        rw [lookupA_upsertA_self] at hqm
        injection hqm with hqm
        refine ⟨ent, hlk, ?_⟩
        rw [hs, ← hqm, hser]
      · rw [lookupA_upsertA_ne ds entID k _ hk] at hqm
        exact ⟨qm, hqm, hs⟩

theorem act_ok_keys (E : Collab) (w : World) (bs : Buckets) :
    ∀ ds ds1, Realm.act E w ds bs = .ok ds1 →
      ds1.map Prod.fst = ds.map Prod.fst := by
  induction bs with
  | nil =>
    intro ds ds1 hh
    rw [Realm.act] at hh
    injection hh with hh
    rw [hh]
  | cons hd rest ih =>
    obtain ⟨p0, b0⟩ := hd
    intro ds ds1 hh
    rw [Realm.act] at hh
    split at hh
    · exact absurd hh (by simp)
    · rename_i dsm hb
      rw [ih _ _ hh, actBucket_ok_keys E w b0 _ _ hb]

theorem act_ok_lookup_ne (E : Collab) (w : World) (bs : Buckets) :
    ∀ ds ds1 (e : Nat), (∀ p b, (p, b) ∈ bs → e ∉ b.map Prod.fst) →
      Realm.act E w ds bs = .ok ds1 → lookupA ds1 e = lookupA ds e := by
  induction bs with
  | nil =>
    intro ds ds1 e _ hh
    rw [Realm.act] at hh
    injection hh with hh
    rw [hh]
  | cons hd rest ih =>
    obtain ⟨p0, b0⟩ := hd
    intro ds ds1 e he hh
    rw [Realm.act] at hh
    split at hh
    · exact absurd hh (by simp)
    · rename_i dsm hb
      rw [ih _ _ e (fun p b hmem => he p b (List.mem_cons_of_mem _ hmem)) hh,
        actBucket_ok_lookup_ne E w b0 _ _ e (he p0 b0 (List.mem_cons_self _ _)) hb]

theorem act_ok_serial (E : Collab) (w : World)
    (hser : ∀ w2 q aa, (E.applyAct w2 q aa).serial = q.serial) (bs : Buckets) :
    ∀ ds ds1 (k : Nat) (q1 : Player),
      Realm.act E w ds bs = .ok ds1 → lookupA ds1 k = some q1 →
      ∃ q0, lookupA ds k = some q0 ∧ q1.serial = q0.serial := by
  induction bs with
  | nil =>
    intro ds ds1 k q1 hh hq
    rw [Realm.act] at hh
    injection hh with hh
    subst hh
    exact ⟨q1, hq, rfl⟩
  | cons hd rest ih =>
    obtain ⟨p0, b0⟩ := hd
    intro ds ds1 k q1 hh hq
    rw [Realm.act] at hh
    split at hh
    · exact absurd hh (by simp)
    · rename_i dsm hb
      obtain ⟨qm, hqm, hs⟩ := ih _ _ k q1 hh hq
      obtain ⟨q0, hq0, hs0⟩ := actBucket_ok_serial E w hser b0 _ _ k qm hb hqm
      exact ⟨q0, hq0, by rw [hs, hs0]⟩

/-! ### Entity keys appearing in the prioritized buckets -/

theorem mem_bucketInsert (acc : Buckets) (p e : Nat) (v : Atn × Args) :
    ∀ q b, (q, b) ∈ bucketInsert acc p e v →
      ∀ k x, (k, x) ∈ b → (∃ b0, (q, b0) ∈ acc ∧ (k, x) ∈ b0) ∨ k = e := by
  induction acc with
  | nil =>
    intro q b hb k x hk
    simp [bucketInsert] at hb
    rw [hb.2] at hk
    simp at hk
    exact Or.inr hk.1
  | cons hd tl ih =>
    obtain ⟨q1, b1⟩ := hd
    intro q b hb k x hk
    by_cases hq : q1 = p
    · subst hq
      rw [show bucketInsert ((q1, b1) :: tl) q1 e v = (q1, upsertA b1 e v) :: tl from by
        simp [bucketInsert]] at hb
      rcases List.mem_cons.mp hb with h1 | h2
      · injection h1 with h1a h1b
        subst h1b
        rcases mem_upsertA b1 e v k x hk with hm | hm
        · exact Or.inl ⟨b1, by simp [h1a], hm⟩
        · exact Or.inr hm
      · exact Or.inl ⟨b, List.mem_cons_of_mem _ h2, hk⟩
    · rw [show bucketInsert ((q1, b1) :: tl) p e v = (q1, b1) :: bucketInsert tl p e v from by
        simp [bucketInsert, hq]] at hb
      rcases List.mem_cons.mp hb with h1 | h2
      · exact Or.inl ⟨b, by rw [h1]; exact List.mem_cons_self _ _, hk⟩
      · rcases ih q b h2 k x hk with ⟨b0, hb0, hk0⟩ | he
        · exact Or.inl ⟨b0, List.mem_cons_of_mem _ hb0, hk0⟩
        · exact Or.inr he

theorem mem_prioritizeInner (entID : Nat) (atns : List (Atn × Args)) :
    ∀ acc q b, (q, b) ∈ prioritizeInner entID acc atns →
      ∀ k x, (k, x) ∈ b → (∃ b0, (q, b0) ∈ acc ∧ (k, x) ∈ b0) ∨ k = entID := by
  induction atns with
  | nil =>
    intro acc q b hb k x hk
    exact Or.inl ⟨b, hb, hk⟩
  | cons hd rest ih =>
    obtain ⟨atn, args⟩ := hd
    intro acc q b hb k x hk
    rcases ih _ q b hb k x hk with ⟨b0, hb0, hk0⟩ | he
    · rcases mem_bucketInsert acc atn.priority entID (atn, args) q b0 hb0 k x hk0 with
        ⟨b2, hb2, hk2⟩ | he2
      · exact Or.inl ⟨b2, hb2, hk2⟩
      · exact Or.inr he2
    · exact Or.inr he

theorem mem_prioritizeAux (d : Decisions) :
    ∀ acc q b, (q, b) ∈ Realm.prioritizeAux acc d →
      ∀ k x, (k, x) ∈ b →
        (∃ b0, (q, b0) ∈ acc ∧ (k, x) ∈ b0) ∨ k ∈ d.map Prod.fst := by
  induction d with
  | nil =>
    intro acc q b hb k x hk
    exact Or.inl ⟨b, hb, hk⟩
  | cons hd rest ih =>
    obtain ⟨entID, atns⟩ := hd
    intro acc q b hb k x hk
    rcases ih _ q b hb k x hk with ⟨b0, hb0, hk0⟩ | he
    · rcases mem_prioritizeInner entID atns acc q b0 hb0 k x hk0 with ⟨b2, hb2, hk2⟩ | he2
      · exact Or.inl ⟨b2, hb2, hk2⟩
      · rw [he2]
        exact Or.inr (by simp)
    · exact Or.inr (by simp [he])

theorem prioritize_bucket_keys (d : Decisions) (q : Nat) (b : Bucket)
    (hb : (q, b) ∈ Realm.prioritize d) (k : Nat) (x : Atn × Args) (hk : (k, x) ∈ b) :
    k ∈ d.map Prod.fst := by
  rcases mem_prioritizeAux d [] q b hb k x hk with ⟨b0, hb0, _⟩ | he
  · simp at hb0
  · exact he

/-! ### Lemmas on the cull scan, the cull, and stimulus collection -/

theorem cullScan_pk_spec (ds2 : List (Nat × Player)) (S : List Nat) (d : Decisions)
    (hdS : ∀ k ∈ d.map Prod.fst, k ∈ S) :
    ∀ dead dones pk out,
      (∀ e q, (e, q) ∈ pk → e ∈ S ∧ q.reward = some 0) →
      Realm.cullScan ds2 d dead dones pk = .ok out →
      ∀ e q, (e, q) ∈ out.2.2 → e ∈ S ∧ q.reward = some 0 := by
  induction d with
  | nil =>
    intro dead dones pk out hpk hh e q hq
    rw [Realm.cullScan] at hh
    injection hh with hh
    subst hh
    exact hpk e q hq
  | cons hd rest ih =>
    obtain ⟨entID, atns⟩ := hd
    intro dead dones pk out hpk hh e q hq
    have hdS2 : ∀ k ∈ rest.map Prod.fst, k ∈ S := by
      intro k hk
      exact hdS k (by simp [hk])
    have hent : entID ∈ S := hdS entID (by simp)
    rw [Realm.cullScan] at hh
    split at hh
    · exact absurd hh (by simp)
    · rename_i ent hlk
      split at hh
      · refine ih hdS2 _ _ _ _ ?_ hh e q hq
        intro e2 q2 hq2
        rcases pktModify_mem _ _ _ e2 q2 hq2 with hm | ⟨he2, q0, hq0, hfq⟩ | ⟨he2, hq0, hfq⟩
        · rcases pktModify_mem _ _ _ e2 q2 hm with hm2 | ⟨he3, q3, hq3, hfq3⟩ | ⟨he3, hq3, hfq3⟩
          · exact hpk e2 q2 hm2
          · subst he3
            rw [hfq3]
            exact ⟨hent, rfl⟩
          · subst he3
            rw [hfq3]
            exact ⟨hent, rfl⟩
        · rw [lookupA_pktModify_self] at hq0
          injection hq0 with hq0
          rw [hfq, ← hq0, he2]
          exact ⟨hent, rfl⟩
        · rw [lookupA_pktModify_self] at hq0
          exact absurd hq0 (by simp)
      · exact ih hdS2 _ _ _ _ hpk hh e q hq

theorem cullScan_dones_spec (ds2 : List (Nat × Player)) (d : Decisions) :
    ∀ dead dones pk out,
      Realm.cullScan ds2 d dead dones pk = .ok out →
      ∀ s, s ∈ out.2.1 → s ∈ dones ∨
        ∃ k ent, k ∈ d.map Prod.fst ∧ lookupA ds2 k = some ent ∧
          ent.alive = false ∧ s = ent.serial := by
  induction d with
  | nil =>
    intro dead dones pk out hh s hs
    rw [Realm.cullScan] at hh
    injection hh with hh
    subst hh
    exact Or.inl hs
  | cons hd rest ih =>
    obtain ⟨entID, atns⟩ := hd
    intro dead dones pk out hh s hs
    rw [Realm.cullScan] at hh
    split at hh
    · exact absurd hh (by simp)
    · rename_i ent hlk
      split at hh
      · rcases ih _ _ _ _ hh s hs with h1 | ⟨k, ent2, hk, hl2, ha2, hs2⟩
        · exact Or.inl h1
        · exact Or.inr ⟨k, ent2, by simp [hk], hl2, ha2, hs2⟩
      · rename_i halive
        rcases ih _ _ _ _ hh s hs with h1 | ⟨k, ent2, hk, hl2, ha2, hs2⟩
        · rcases mem_setAdd dones ent.serial s h1 with h2 | h2
          · exact Or.inl h2
          · exact Or.inr ⟨entID, ent, by simp, hlk, by simpa using halive, h2⟩
        · exact Or.inr ⟨k, ent2, by simp [hk], hl2, ha2, hs2⟩

theorem cullScan_dead_spec (ds2 : List (Nat × Player)) (d : Decisions) :
    ∀ dead dones pk out,
      Realm.cullScan ds2 d dead dones pk = .ok out →
      ∀ y, y ∈ out.1 → y ∈ dead ∨ y ∈ d.map Prod.fst := by
  induction d with
  | nil =>
    intro dead dones pk out hh y hy
    rw [Realm.cullScan] at hh
    injection hh with hh
    subst hh
    exact Or.inl hy
  | cons hd rest ih =>
    obtain ⟨entID, atns⟩ := hd
    intro dead dones pk out hh y hy
    rw [Realm.cullScan] at hh
    split at hh
    · exact absurd hh (by simp)
    · rename_i ent hlk
      split at hh
      · rcases ih _ _ _ _ hh y hy with h1 | h2
        · exact Or.inl h1
        · exact Or.inr (by simp [h2])
      · rcases ih _ _ _ _ hh y hy with h1 | h2
        · rcases List.mem_append.mp h1 with h3 | h3
          · exact Or.inl h3
          · simp at h3
            exact Or.inr (by simp [h3])
        · exact Or.inr (by simp [h2])

theorem cullScan_mono (ds2 : List (Nat × Player)) (d : Decisions) :
    ∀ dead dones pk out,
      Realm.cullScan ds2 d dead dones pk = .ok out →
      (∀ y, y ∈ dead → y ∈ out.1) ∧
      (∀ k, k ∈ pk.map Prod.fst → k ∈ out.2.2.map Prod.fst) := by
  induction d with
  | nil =>
    intro dead dones pk out hh
    rw [Realm.cullScan] at hh
    injection hh with hh
    subst hh
    exact ⟨fun y hy => hy, fun k hk => hk⟩
  | cons hd rest ih =>
    obtain ⟨entID, atns⟩ := hd
    intro dead dones pk out hh
    rw [Realm.cullScan] at hh
    split at hh
    · exact absurd hh (by simp)
    · rename_i ent hlk
      split at hh
      · obtain ⟨h1, h2⟩ := ih _ _ _ _ hh
        refine ⟨h1, ?_⟩
        intro k hk
        exact h2 k (mem_keys_pktModify_mono _ _ _ k (mem_keys_pktModify_mono _ _ _ k hk))
      · obtain ⟨h1, h2⟩ := ih _ _ _ _ hh
        exact ⟨fun y hy => h1 y (List.mem_append_left _ hy), h2⟩

theorem cullScan_total (ds2 : List (Nat × Player)) (d : Decisions) :
    ∀ dead dones pk out,
      Realm.cullScan ds2 d dead dones pk = .ok out →
      ∀ k, k ∈ d.map Prod.fst → k ∈ out.1 ∨ k ∈ out.2.2.map Prod.fst := by
  induction d with
  | nil =>
    intro dead dones pk out hh k hk
    simp at hk
  | cons hd rest ih =>
    obtain ⟨entID, atns⟩ := hd
    intro dead dones pk out hh k hk
    rw [Realm.cullScan] at hh
    split at hh
    · exact absurd hh (by simp)
    · rename_i ent hlk
      rw [List.map_cons] at hk
      rcases List.mem_cons.mp hk with hke | hkr
      · subst hke
        split at hh
        · right
          refine (cullScan_mono ds2 rest _ _ _ out hh).2 k ?_
          refine mem_keys_pktModify_mono _ _ _ k ?_
          exact lookupA_some_mem_keys _ k _ (lookupA_pktModify_self pk k _)
        · left
          exact (cullScan_mono ds2 rest _ _ _ out hh).1 k (by simp)
      · split at hh
        · exact ih _ _ _ _ hh k hkr
        · exact ih _ _ _ _ hh k hkr

theorem cullDead_ok_keys_sublist (dead : List Nat) :
    ∀ (w : World) (sp : Spawner) ds out,
      Realm.cullDead w sp ds dead = .ok out →
      (out.2.2.map Prod.fst).Sublist (ds.map Prod.fst) := by
  induction dead with
  | nil =>
    intro w sp ds out hh
    rw [Realm.cullDead] at hh
    injection hh with hh
    subst hh
    exact List.Sublist.refl _
  | cons e0 rest ih =>
    intro w sp ds out hh
    rw [Realm.cullDead] at hh
    split at hh
    · exact absurd hh (by simp)
    · rename_i ent hlk
      split at hh
      · exact absurd hh (by simp)
      · rename_i sp1 hcull
        exact (ih _ _ _ _ hh).trans (removeA_keys_sublist ds e0)

theorem cullDead_ok_lookup_ne (dead : List Nat) :
    ∀ (w : World) (sp : Spawner) ds out (e : Nat), e ∉ dead →
      Realm.cullDead w sp ds dead = .ok out →
      lookupA out.2.2 e = lookupA ds e := by
  induction dead with
  | nil =>
    intro w sp ds out e _ hh
    rw [Realm.cullDead] at hh
    injection hh with hh
    subst hh
    rfl
  | cons e0 rest ih =>
    intro w sp ds out e he hh
    rw [List.mem_cons] at he
    push_neg at he
    rw [Realm.cullDead] at hh
    split at hh
    · exact absurd hh (by simp)
    · rename_i ent hlk
      split at hh
      · exact absurd hh (by simp)
      · rename_i sp1 hcull
        rw [ih _ _ _ _ e he.2 hh, lookupA_removeA_ne ds e0 e he.1]

theorem cullDead_removes (dead : List Nat) :
    ∀ (w : World) (sp : Spawner) ds out, (ds.map Prod.fst).Nodup →
      Realm.cullDead w sp ds dead = .ok out →
      ∀ e, e ∈ dead → e ∉ out.2.2.map Prod.fst := by
  induction dead with
  | nil =>
    intro w sp ds out _ hh e he
    simp at he
  | cons e0 rest ih =>
    intro w sp ds out hnd hh e he
    rw [Realm.cullDead] at hh
    split at hh
    · exact absurd hh (by simp)
    · rename_i ent hlk
      split at hh
      · exact absurd hh (by simp)
      · rename_i sp1 hcull
        rcases List.mem_cons.mp he with he0 | her
        · subst he0
          intro hmem
          exact not_mem_keys_removeA ds e hnd
            ((cullDead_ok_keys_sublist rest _ _ _ _ hh).subset hmem)
        · exact ih _ _ _ _ (nodup_keys_removeA ds e0 hnd) hh e her

/-! ### Lemmas on stimulus collection -/

theorem getStims_lookup_ne (E : Collab) (cfg : Config) (w : World)
    (dsIter : List (Nat × Player)) :
    ∀ pk (e : Nat), e ∉ dsIter.map Prod.fst →
      lookupA (Realm.getStims E cfg w dsIter pk) e = lookupA pk e := by
  induction dsIter with
  | nil =>
    intro pk e _
    rfl
  | cons hd rest ih =>
    obtain ⟨k0, p0⟩ := hd
    intro pk e he
    rw [List.map_cons, List.mem_cons] at he
    push_neg at he
    rw [Realm.getStims, ih _ e he.2, lookupA_pktModify_ne pk k0 _ e he.1]

theorem getStims_sets_stim (E : Collab) (cfg : Config) (w : World)
    (dsIter : List (Nat × Player)) :
    ∀ pk (e : Nat) (p : Player), (dsIter.map Prod.fst).Nodup → (e, p) ∈ dsIter →
      ∃ q, lookupA (Realm.getStims E cfg w dsIter pk) e = some q ∧
        q.stim = some (StimData.withStim (E.stim w p.pos cfg.STIM) p) := by
  induction dsIter with
  | nil =>
    intro pk e p _ hmem
    simp at hmem
  | cons hd rest ih =>
    obtain ⟨k0, p0⟩ := hd
    intro pk e p hnd hmem
    rw [List.map_cons, List.nodup_cons] at hnd
    rcases List.mem_cons.mp hmem with h1 | h2
    · injection h1 with h1a h1b
      subst h1a
      subst h1b
      have hnot : e ∉ rest.map Prod.fst := hnd.1
      rw [Realm.getStims, getStims_lookup_ne E cfg w rest _ e hnot,
        lookupA_pktModify_self]
      exact ⟨_, rfl, rfl⟩
    · have hke : k0 ≠ e := by
        intro hk
        subst hk
        exact hnd.1 (List.mem_map.mpr ⟨(k0, p), h2, rfl⟩)
      rw [Realm.getStims]
      exact ih _ e p hnd.2 h2

theorem getStims_rewards_spec (E : Collab) (cfg : Config) (w : World)
    (dk : List Nat) (dsIter : List (Nat × Player)) :
    ∀ pk,
      (∀ e q, (e, q) ∈ pk → (e ∈ dk → q.reward = some 0) ∧ (e ∉ dk → q.reward = none)) →
      (∀ k, k ∈ dsIter.map Prod.fst → k ∉ pk.map Prod.fst → k ∉ dk) →
      ∀ e q, (e, q) ∈ Realm.getStims E cfg w dsIter pk →
        (e ∈ dk → q.reward = some 0) ∧ (e ∉ dk → q.reward = none) := by
  induction dsIter with
  | nil =>
    intro pk hpk _ e q hq
    exact hpk e q hq
  | cons hd rest ih =>
    obtain ⟨k0, p0⟩ := hd
    intro pk hpk hnew e q hq
    rw [Realm.getStims] at hq
    refine ih _ ?_ ?_ e q hq
    · intro e2 q2 hq2
      rcases pktModify_mem _ _ _ e2 q2 hq2 with hm | ⟨he2, q0, hq0, hfq⟩ | ⟨he2, hq0, hfq⟩
      · exact hpk e2 q2 hm
      · obtain ⟨c1, c2⟩ := hpk k0 q0 (mem_of_lookupA_eq_some _ _ _ hq0)
        rw [hfq, he2]
        exact ⟨c1, c2⟩
      · have hk0 : k0 ∉ dk := hnew k0 (by simp) ((lookupA_eq_none_iff pk k0).mp hq0)
        rw [hfq, he2]
        exact ⟨fun hmem => absurd hmem hk0, fun _ => rfl⟩
    · intro k hk hnot
      by_cases hkk : k = k0
      · exfalso
        apply hnot
        rw [hkk]
        exact lookupA_some_mem_keys _ k0 _ (lookupA_pktModify_self pk k0 _)
      · refine hnew k (by simp [hk]) ?_
        intro hmem
        exact hnot (mem_keys_pktModify_mono pk k0 _ k hmem)

/-! ### Dissecting successful runs of stepEnts and step -/

theorem stepEnts_ok_parts (E : Collab) (w : World) (sp : Spawner)
    (ds : List (Nat × Player)) (d : Decisions)
    (out : World × Spawner × List (Nat × Player) × List (Nat × Pkt) × List Nat)
    (hx : Realm.stepEnts E w sp ds d = .ok out) :
    ∃ ds1 ds2 dead,
      Realm.selfStepEnts E w ds d = .ok ds1 ∧
      Realm.act E w ds1 (Realm.prioritize d) = .ok ds2 ∧
      Realm.cullScan ds2 d [] [] [] = .ok (dead, out.2.2.2.2, out.2.2.2.1) ∧
      Realm.cullDead w sp ds2 dead = .ok (out.1, out.2.1, out.2.2.1) := by
  rw [Realm.stepEnts] at hx
  split at hx
  · exact absurd hx (by simp)
  · rename_i ds1 h1
    split at hx
    · exact absurd hx (by simp)
    · rename_i ds2 h2
      split at hx
      · exact absurd hx (by simp)
      · rename_i dead dones pk h3
        split at hx
        · exact absurd hx (by simp)
        · rename_i w1 sp1 ds3 h4
          injection hx with hx
          subst hx
          exact ⟨ds1, ds2, dead, h1, h2, h3, h4⟩

theorem step_ok_parts (E : Collab) (cfg : Config) (h : String → Int) (r : RealmState)
    (d : Decisions) (x : RealmState × Output)
    (hx : Realm.step E cfg h r d = .ok x) :
    ∃ v sp1 w1 ds1 w2 sp2 ds2 pk dones,
      Spawner.spawn E r.spawner r.world r.desciples (r.entID + 1)
          (Realm.spawn h cfg.NPOP r.entID).2.1 "Neural_" = .ok (v, sp1, w1, ds1) ∧
      Realm.stepEnts E w1 sp1 ds1 d = .ok (w2, sp2, ds2, pk, dones) ∧
      x.1.desciples = ds2 ∧
      x.2.dones = dones ∧
      x.2.stims = (Realm.getStims E cfg (Realm.stepEnv E w2 ds2) ds2 pk).map
        (fun y => y.2.stim) := by
  rw [Realm.step] at hx
  split at hx
  · exact absurd hx (by simp)
  · rename_i v sp1 w1 ds1 hsp
    split at hx
    · exact absurd hx (by simp)
    · rename_i w2 sp2 ds2 pk dones hse
      injection hx with hx
      subst hx
      exact ⟨v, sp1, w1, ds1, w2, sp2, ds2, pk, dones, hsp, hse, rfl, rfl, rfl⟩

/-! ### C6: rewards in the observation packets -/

/-- C6 counterexample: one step with no decisions from the initial realm:
the newly spawned entity receives an observation packet (via getStims) but
its reward slot is Python None, never initialized to zero, so the rewards
list of the step return is [None], not [0]. -/
theorem step_reward_none_for_undecided :
    (Realm.step Etriv cfg0 hzero (Realm.init Etriv cfg0) []).toOption.map
        (fun x => x.2.rewards) = some [none] ∧
    (none : Option Int) ≠ some 0 :=
  ⟨rfl, by decide⟩

/-- C6 (amended): in the packets assembled by a tick (cull scan of
stepEnts followed by getStims, exactly the composition whose stim/reward
fields Realm.step returns), an entity that submitted a decision and
survived carries the placeholder reward zero, while an entity that
receives a packet without having had a decision this tick (for example
the freshly spawned entity) carries reward None - unset, not zero. -/
theorem packet_rewards_zero_or_unset (E : Collab) (cfg : Config) (wAdv w : World)
    (sp : Spawner) (ds : List (Nat × Player)) (d : Decisions)
    (out : World × Spawner × List (Nat × Player) × List (Nat × Pkt) × List Nat)
    (hnodup : (ds.map Prod.fst).Nodup)
    (hok : Realm.stepEnts E w sp ds d = .ok out) :
    ∀ e q, (e, q) ∈ Realm.getStims E cfg wAdv out.2.2.1 out.2.2.2.1 →
      (e ∈ d.map Prod.fst → q.reward = some 0) ∧
      (e ∉ d.map Prod.fst → q.reward = none) := by
  obtain ⟨ds1, ds2, dead, h1, h2, h3, h4⟩ := stepEnts_ok_parts E w sp ds d out hok
  have hk1 : ds1.map Prod.fst = ds.map Prod.fst := selfStepEnts_ok_keys E w d ds ds1 h1
  have hk2 : ds2.map Prod.fst = ds1.map Prod.fst := act_ok_keys E w _ ds1 ds2 h2
  have hnd2 : (ds2.map Prod.fst).Nodup := by
    rw [hk2, hk1]
    exact hnodup
  have hpk : ∀ e q, (e, q) ∈ out.2.2.2.1 → e ∈ d.map Prod.fst ∧ q.reward = some 0 := by
    intro e q hq
    exact cullScan_pk_spec ds2 (d.map Prod.fst) d (fun k hk => hk) [] [] [] _
      (by simp) h3 e q hq
  have htotal := cullScan_total ds2 d [] [] [] _ h3
  have hremove := cullDead_removes dead w sp ds2 _ hnd2 h4
  apply getStims_rewards_spec E cfg wAdv (d.map Prod.fst) out.2.2.1 out.2.2.2.1
  · intro e q hq
    obtain ⟨hmem, hrw⟩ := hpk e q hq
    exact ⟨fun _ => hrw, fun hnot => absurd hmem hnot⟩
  · intro k hk hnot hkd
    rcases htotal k hkd with hdead | hpkk
    · exact hremove k hdead hk
    · exact hnot hpkk

/-- C6 witness: entity 5 (live, with an empty decision) gets reward zero
and every packet-holder without a decision gets reward None, on a concrete
stepEnts run. -/
theorem packet_rewards_zero_or_unset_witness :
    ∃ out, Realm.stepEnts Etriv Etriv.initWorld (Spawner.init cfg0) [(5, pLive)] dLive
        = .ok out ∧
      ∀ e q, (e, q) ∈ Realm.getStims Etriv cfg0 Etriv.initWorld out.2.2.1 out.2.2.2.1 →
        (e ∈ dLive.map Prod.fst → q.reward = some 0) ∧
        (e ∉ dLive.map Prod.fst → q.reward = none) :=
  ⟨_, rfl, packet_rewards_zero_or_unset Etriv cfg0 Etriv.initWorld Etriv.initWorld
    (Spawner.init cfg0) [(5, pLive)] dLive _ (by decide) rfl⟩

/-! ### C9: an undecided entity is never culled and still observed -/

theorem spawner_spawn_ok_desc (E : Collab) (sp : Spawner) (w : World)
    (ds : List (Nat × Player)) (iden pop : Nat) (name : String)
    (v : Option Bool) (sp1 : Spawner) (w1 : World) (ds1 : List (Nat × Player))
    (hh : Spawner.spawn E sp w ds iden pop name = .ok (v, sp1, w1, ds1)) :
    ds1 = ds ∨ ds1 = upsertA ds iden (Collab.mkPlayer E iden pop name (E.colorOf pop)) := by
  rw [Spawner.spawn] at hh
  split at hh
  · split at hh
    · split at hh
      · injection hh with hh
        exact Or.inl (congrArg (fun z => z.2.2.2) hh).symm
      · injection hh with hh
        exact Or.inr (congrArg (fun z => z.2.2.2) hh).symm
    · exact absurd hh (by simp)
  · exact absurd hh (by simp)

/-- C9: for every successful step call, an entity e that sits in the
entity map (with any liveness flag, in particular a dead one) but has no
entry in the decisions mapping is not culled: its entry survives the step
untouched, its serial number does not appear in the dones output (given
that serial numbers identify entities: the external self-step and action
application preserve the serial field, serials are unique across the
entity map, and the freshly spawned serial differs), and an observation
packet pairing a stimulus with the entity still appears in the stims of
the step return value. -/
theorem undecided_entity_not_culled (E : Collab) (cfg : Config) (h : String → Int)
    (r : RealmState) (d : Decisions) (x : RealmState × Output) (e : Nat) (p : Player)
    (hx : Realm.step E cfg h r d = .ok x)
    (hmem : lookupA r.desciples e = some p)
    (hnd : e ∉ d.map Prod.fst)
    (hid : e ≠ r.entID + 1)
    (hnodup : (r.desciples.map Prod.fst).Nodup)
    (hselfser : ∀ w2 q a, (E.selfStep w2 q a).serial = q.serial)
    (hactser : ∀ w2 q aa, (E.applyAct w2 q aa).serial = q.serial)
    (huniq : ∀ e2 p2, lookupA r.desciples e2 = some p2 → p2.serial = p.serial → e2 = e)
    (hserIden : E.serialOf (r.entID + 1) ≠ p.serial) :
    lookupA x.1.desciples e = some p ∧
    p.serial ∉ x.2.dones ∧
    (∃ s, some (StimData.withStim s p) ∈ x.2.stims) := by
  obtain ⟨v, sp1, w1, ds1, w2, sp2, ds2, pk, dones, hsp, hse, hdesc, hdones, hstims⟩ :=
    step_ok_parts E cfg h r d x hx
  obtain ⟨dsa, dsb, dead, h1, h2, h3, h4⟩ :=
    stepEnts_ok_parts E w1 sp1 ds1 d (w2, sp2, ds2, pk, dones) hse
  have hds1 := spawner_spawn_ok_desc E r.spawner r.world r.desciples (r.entID + 1)
    (Realm.spawn h cfg.NPOP r.entID).2.1 "Neural_" v sp1 w1 ds1 hsp
  -- the entry of e in the post-spawn map
  have hlk1 : lookupA ds1 e = some p := by
    rcases hds1 with hds1 | hds1
    · rw [hds1]
      exact hmem
    · rw [hds1, lookupA_upsertA_ne r.desciples (r.entID + 1) e _ hid]
      exact hmem
  have hnd1 : (ds1.map Prod.fst).Nodup := by
    rcases hds1 with hds1 | hds1
    · rw [hds1]
      exact hnodup
    · rw [hds1]
      exact nodup_keys_upsertA r.desciples (r.entID + 1) _ hnodup
  -- the entry survives the self-step and the act phases unchanged
  have hlka : lookupA dsa e = some p := by
    rw [selfStepEnts_ok_lookup_ne E w1 d ds1 dsa e hnd h1]
    exact hlk1
  have hbkeys : ∀ pn b, (pn, b) ∈ Realm.prioritize d → e ∉ b.map Prod.fst := by
    intro pn b hb hmemb
    obtain ⟨⟨k, xv⟩, hkx, hkfst⟩ := List.mem_map.mp hmemb
    rw [show k = e from hkfst] at hkx
    exact hnd (prioritize_bucket_keys d pn b hb e xv hkx)
  have hlkb : lookupA dsb e = some p := by
    rw [act_ok_lookup_ne E w1 (Realm.prioritize d) dsa dsb e hbkeys h2]
    exact hlka
  -- e is not marked dead, so cullDead leaves it in place
  have hdead_sub : ∀ y, y ∈ dead → y ∈ d.map Prod.fst := by
    intro y hy
    rcases cullScan_dead_spec dsb d [] [] [] _ h3 y hy with h0 | h0
    · simp at h0
    · exact h0
  have hedead : e ∉ dead := fun hc => hnd (hdead_sub e hc)
  have hlk2 : lookupA ds2 e = some p := by
    have := cullDead_ok_lookup_ne dead w1 sp1 dsb (w2, sp2, ds2) e hedead h4
    rw [show lookupA ds2 e = lookupA (w2, sp2, ds2).2.2 e from rfl, this]
    exact hlkb
  -- keys of the post-act map and of the post-cull map
  have hka : dsa.map Prod.fst = ds1.map Prod.fst := selfStepEnts_ok_keys E w1 d ds1 dsa h1
  have hkb : dsb.map Prod.fst = dsa.map Prod.fst := act_ok_keys E w1 _ dsa dsb h2
  have hndb : (dsb.map Prod.fst).Nodup := by
    rw [hkb, hka]
    exact hnd1
  have hnd2 : (ds2.map Prod.fst).Nodup :=
    (cullDead_ok_keys_sublist dead w1 sp1 dsb (w2, sp2, ds2) h4).nodup hndb
  refine ⟨?_, ?_, ?_⟩
  · rw [hdesc]
    exact hlk2
  · rw [hdones]
    intro hser
    rcases cullScan_dones_spec dsb d [] [] [] _ h3 p.serial hser with h0 | h0
    · simp at h0
    · obtain ⟨k, ent, hkmem, hklk, hkal, hks⟩ := h0
      obtain ⟨q0, hq0, hs0⟩ := act_ok_serial E w1 hactser (Realm.prioritize d) dsa dsb k ent h2 hklk
      obtain ⟨q1, hq1, hs1⟩ := selfStepEnts_ok_serial E w1 hselfser d ds1 dsa k q0 h1 hq0
      have hq1ser : q1.serial = p.serial := by
        rw [← hs1, ← hs0, ← hks]
      rcases hds1 with hds1 | hds1
      · rw [hds1] at hq1
        exact hnd (by rw [huniq k q1 hq1 hq1ser] at hkmem; exact hkmem)
      · by_cases hkiden : k = r.entID + 1
        · rw [hds1, hkiden, lookupA_upsertA_self] at hq1
          injection hq1 with hq1
          apply hserIden
          rw [← hq1ser, ← hq1]
          rfl
        · rw [hds1, lookupA_upsertA_ne r.desciples (r.entID + 1) k _ hkiden] at hq1
          exact hnd (by rw [huniq k q1 hq1 hq1ser] at hkmem; exact hkmem)
  · rw [hstims]
    obtain ⟨q, hq, hqs⟩ := getStims_sets_stim E cfg (Realm.stepEnv E w2 ds2) ds2 pk e p
      hnd2 (mem_of_lookupA_eq_some ds2 e p hlk2)
    refine ⟨E.stim (Realm.stepEnv E w2 ds2) p.pos cfg.STIM, ?_⟩
    rw [← hqs]
    exact List.mem_map.mpr ⟨(e, q), mem_of_lookupA_eq_some _ e q hq, rfl⟩

/-- C9 witness: a realm holding the dead, undecided entity 5 (serial 55)
runs one step with empty decisions: the entity stays in the map, 55 is not
among the dones, and a stimulus packet for it is returned. -/
theorem undecided_entity_not_culled_witness :
    ∃ x, Realm.step Etriv cfg0 hzero rDead [] = .ok x ∧
      lookupA x.1.desciples 5 = some pDead ∧
      pDead.serial ∉ x.2.dones ∧
      (∃ s, some (StimData.withStim s pDead) ∈ x.2.stims) :=
  ⟨_, rfl, undecided_entity_not_culled Etriv cfg0 hzero rDead [] _ 5 pDead rfl
    (by decide) (by decide) (by decide) (by decide)
    (fun _ _ _ => rfl) (fun _ _ _ => rfl)
    (fun e2 p2 hl _ => by
      have hred : lookupA rDead.desciples e2 = if 5 = e2 then some pDead else none := rfl
      rw [hred] at hl
      by_cases h5 : (5 : Nat) = e2
      · exact h5.symm
      · rw [if_neg h5] at hl
        exact absurd hl (by simp))
    (by decide)⟩
